import Mathlib

/-!
# Slot machine demo (`game.js`): the reel animation state machine

A shallow embedding of the animation core of `src/game.js`:
`shuffle`, `setup` (geometry and the reel strip), `wrap`, the four phase callbacks
`phase1` .. `phase4` and the frame driver `animate`.

Modelling decisions.
* The geometry description `desc` is immutable, so it is passed as a parameter
  `d : Desc`; `endY` and `startY`, assigned once in `setup`, are functions of it.
* The mutable part of a `SlotGame` object is the record `SlotGame`; the entry `i` of
  `slotSprites` is `slotSprites[i].pivot.y`.  All pivots the program ever stores are
  integers (`Math.floor`, `Math.round`, integer steps), so they are `Int`.
* A read or write of `slotSprites[slot].pivot` with `slot` out of range throws a
  `TypeError` in JavaScript: the phase callbacks return `Option`, `none` for the throw.
* Arithmetic on JavaScript numbers is modelled over `ℚ`, exactly where the program's
  numbers are small integers or the rounding cannot change the result; the product in
  `shuffle` is rounded to binary64 by the parameter `fl`.  `Math.sin` is an
  implementation-approximated library function: its value at `2 * Math.PI * t / 15`
  is the parameter `sin15 t`, about which theorems assume only what they state.
  `Math.random` is the parameter `rand`, the sequence of its values.
-/

/-- Geometry description, the fields of `FOURKINGS` the animation reads:
`tileSize`, `slots.x` and `sprites`. -/
structure Desc where
  tileSize : Int
  slotsX : List Int
  sprites : List String
  deriving DecidableEq, Repr

/-- The shipped description `FOURKINGS`. -/
def FOURKINGS : Desc where
  tileSize := 222
  slotsX := [169, 413, 657, 901, 1145]
  sprites := ["images/01_01.png", "images/03_01.png", "images/04_symbol_01.png",
    "images/05_01.png", "images/scatter.png", "images/symbol_06_01.png"]

/-- The phase callback stored in `this.state`. -/
inductive Phase where
  | phase1
  | phase2
  | phase3
  | phase4
  deriving DecidableEq, Repr

/-- The successor of a phase in the cyclic order
Initial Delay, Initial Bump, Full Spin, Staggered Stop, Initial Delay. -/
def Phase.next : Phase → Phase
  | Phase.phase1 => Phase.phase2
  | Phase.phase2 => Phase.phase3
  | Phase.phase3 => Phase.phase4
  | Phase.phase4 => Phase.phase1

/-- The mutable fields of a `SlotGame` object. -/
structure SlotGame where
  state : Phase
  ticks : Nat
  slot : Nat
  slotTicks : Nat
  nearestY : Int
  slotSprites : List Int
  deriving DecidableEq, Repr

namespace Desc

/-- `const spriteCount = this.desc.sprites.length`. -/
def spriteCount (d : Desc) : Nat := d.sprites.length

/-- `const itemCount = spriteCount + 5`. -/
def itemCount (d : Desc) : Nat := d.spriteCount + 5

/-- `const slotCount = this.desc.slots.x.length`. -/
def slotCount (d : Desc) : Nat := d.slotsX.length

/-- `this.endY = this.desc.tileSize`. -/
def endY (d : Desc) : Int := d.tileSize

/-- `this.startY = this.desc.tileSize * (itemCount - 4)`. -/
def startY (d : Desc) : Int := d.tileSize * ((d.itemCount : Int) - 4)

end Desc

/-- The tile order of one reel strip built in `setup`: row `y` of the strip shows
sprite `rndArray[y % this.desc.sprites.length]`, for `0 ≤ y < itemCount`
(`none` is JavaScript's `undefined`). -/
def reelStrip (d : Desc) (rndArray : List Nat) : List (Option Nat) :=
  (List.range d.itemCount).map (fun y => rndArray[y % d.sprites.length]?)

/-- A finite binary64 number: `a * 2 ^ e` with `|a| < 2 ^ 53` and `-1074 ≤ e ≤ 971`. -/
def IsDouble (q : ℚ) : Prop :=
  ∃ (a e : Int), |a| < 2 ^ 53 ∧ -1074 ≤ e ∧ e ≤ 971 ∧ q = (a : ℚ) * (2 : ℚ) ^ e

/-- The index chosen in iteration `i` of `shuffle`:
`Math.floor(Math.random() * (n - i)) + i`, for the value `r` of `Math.random()`.  The
difference `n - i` and the sum are exact; the product is a binary64 number, `fl x` for
the exact product `x`. -/
def shuffleIndex (fl : ℚ → ℚ) (r : ℚ) (n i : Nat) : Int :=
  ⌊fl (r * ((n : ℚ) - (i : ℚ)))⌋ + (i : Int)

/-- The body of the loop of `shuffle`: exchange `array[i]` and `array[j]`.  `none` stands
for an access outside the array (JavaScript would read `undefined` and grow the array). -/
def shuffleSwap {α : Type} (array : List α) (i : Nat) (j : Int) : Option (List α) :=
  if 0 ≤ j then
    match array[i]?, array[j.toNat]? with
    | some tmp, some aj => some ((array.set i aj).set j.toNat tmp)
    | _, _ => none
  else none

/-- The function `shuffle` (Fisher-Yates): `for (let i = 0; i < n - 1; i++)` with
`n = array.length`; `rand i` is the value of the call of `Math.random()` in iteration `i`
and `fl` the rounding of the products. -/
def shuffle {α : Type} (fl : ℚ → ℚ) (rand : Nat → ℚ) (array : List α) : Option (List α) :=
  (List.range (array.length - 1)).foldlM
    (fun a i => shuffleSwap a i (shuffleIndex fl (rand i) array.length i)) array

/-- The draws and products of a `shuffle` of `n` elements are binary64 arithmetic: every
draw is a binary64 number in `[0, 1)`, and the product of iteration `i` is rounded to a
nearest binary64 number (however ties are broken). -/
def Binary64Draws (fl : ℚ → ℚ) (rand : Nat → ℚ) (n : Nat) : Prop :=
  (∀ k, IsDouble (rand k) ∧ 0 ≤ rand k ∧ rand k < 1) ∧
  ∀ i, i + 1 < n → ∀ q, IsDouble q →
    |rand i * ((n : ℚ) - (i : ℚ)) - fl (rand i * ((n : ℚ) - (i : ℚ)))|
      ≤ |rand i * ((n : ℚ) - (i : ℚ)) - q|

/-- A draw whose product with 6 lies halfway between two binary64 numbers:
`tieDraw * 6 = 5 - 2 ^ (-51)`. -/
def tieDraw : ℚ := 3752999689475413 / 2 ^ 52

/-- Draws for a shuffle of six elements: `tieDraw` first, then one half. -/
def tieRand (i : Nat) : ℚ := if i = 0 then tieDraw else 1 / 2

/-- The rounding of the products of `tieRand`: `tieDraw * 6` rounds to 5 (the tie goes to
the even significand), the other products are binary64 numbers themselves. -/
def tieRound (x : ℚ) : ℚ := if x = tieDraw * 6 then 5 else x

/-- `Math.round`: the nearest integer, halves rounded up. -/
def jsRound (x : ℚ) : Int := ⌊x + 1 / 2⌋

namespace SlotGame

/-- The object after the constructor and `setup`: `state = phase1`, all counters 0,
every reel's `pivot.y = startY`. -/
def setup (d : Desc) : SlotGame where
  state := Phase.phase1
  ticks := 0
  slot := 0
  slotTicks := 0
  nearestY := 0
  slotSprites := List.replicate d.slotCount d.startY

/-- `SlotGame.prototype.wrap`. -/
def wrap (d : Desc) (y : Int) : Int :=
  if y < d.endY then d.startY - (d.endY - y) else y

/-- `SlotGame.prototype.phase1`: initial delay. -/
def phase1 (g : SlotGame) : SlotGame :=
  if g.ticks > 30 then { g with ticks := 0, state := Phase.phase2 } else g

/-- The step of `phase2` on one pivot:
`Math.floor(y + this.desc.tileSize * amount / delay)` with `amount = 1 / 7`, `delay = 12`. -/
def bumpUp (d : Desc) (y : Int) : Int :=
  ⌊(y : ℚ) + (d.tileSize : ℚ) * (1 / 7) / 12⌋

/-- `SlotGame.prototype.phase2`: initial bump. -/
def phase2 (d : Desc) (g : SlotGame) : SlotGame :=
  let g1 := if g.ticks > 12 then { g with ticks := 0, state := Phase.phase3 } else g
  { g1 with slotSprites := g1.slotSprites.map (bumpUp d) }

/-- `SlotGame.prototype.phase3`: full speed rotation. -/
def phase3 (d : Desc) (g : SlotGame) : SlotGame :=
  let g1 := if g.ticks > 90 then
      { g with ticks := 0, state := Phase.phase4, slot := 0, slotTicks := 0 }
    else g
  { g1 with slotSprites := g1.slotSprites.map (fun y => wrap d (y - 40)) }

/-- The bump of `phase4` at stop counter `t`:
`Math.round((1 - t / bumpDelay) * Math.abs(amplitude * Math.sin(2 * Math.PI * t / bumpDelay)))`
with `bumpDelay = 15`, `amplitude = tileSize / 7`; `sin15 t` is the value of the sine. -/
def bump (sin15 : Nat → ℚ) (d : Desc) (t : Nat) : Int :=
  jsRound ((1 - (t : ℚ) / 15) * |(d.tileSize : ℚ) / 7 * sin15 t|)

/-- The last loop of `phase4`, `for (let i = k; i < length; i++)`:
every reel with index `≥ k` steps at full speed. -/
def spinFrom (d : Desc) : Nat → List Int → List Int
  | _, [] => []
  | 0, y :: ys => wrap d (y - 40) :: spinFrom d 0 ys
  | k + 1, y :: ys => y :: spinFrom d k ys

/-- The middle of `phase4`: stop the current slot bump-style. -/
def stopCurrent (sin15 : Nat → ℚ) (d : Desc) (g : SlotGame) : Option SlotGame :=
  if g.slotTicks = 0 then
    match g.slotSprites[g.slot]? with
    | none => none
    | some y =>
      let nearestY := y - Int.tmod y d.tileSize
      if y - 40 > nearestY then
        some { g with slotSprites := g.slotSprites.set g.slot (wrap d (y - 40)) }
      else
        some { g with slotTicks := 1, nearestY := nearestY,
                      slotSprites := g.slotSprites.set g.slot nearestY }
  else if g.slotTicks ≤ 15 then
    if g.slot < g.slotSprites.length then
      some { g with slotSprites := g.slotSprites.set g.slot (g.nearestY + bump sin15 d g.slotTicks),
                    slotTicks := g.slotTicks + 1 }
    else none
  else some g

/-- The part of `phase4` after the window check: stop the current slot, then rotate
the rest of the slots at full speed. -/
def phase4Body (sin15 : Nat → ℚ) (d : Desc) (g : SlotGame) : Option SlotGame :=
  (stopCurrent sin15 d g).map
    (fun g1 => { g1 with slotSprites := spinFrom d (g1.slot + 1) g1.slotSprites })

/-- `SlotGame.prototype.phase4`: staggered stop. -/
def phase4 (sin15 : Nat → ℚ) (d : Desc) (g : SlotGame) : Option SlotGame :=
  if g.ticks > 45 then
    if (g.slot : Int) = (g.slotSprites.length : Int) - 1 then
      some { g with ticks := 0, state := Phase.phase1 }
    else
      phase4Body sin15 d { g with ticks := 0, slot := g.slot + 1, slotTicks := 0 }
  else phase4Body sin15 d g

/-- `SlotGame.prototype.animate`, without the render: `this.ticks += 1; this.state()`. -/
def animate (sin15 : Nat → ℚ) (d : Desc) (g : SlotGame) : Option SlotGame :=
  let g1 := { g with ticks := g.ticks + 1 }
  match g1.state with
  | Phase.phase1 => some (phase1 g1)
  | Phase.phase2 => some (phase2 d g1)
  | Phase.phase3 => some (phase3 d g1)
  | Phase.phase4 => phase4 sin15 d g1

/-- The object after `n` further frames, `none` if a frame threw. -/
def run (sin15 : Nat → ℚ) (d : Desc) : Nat → SlotGame → Option SlotGame
  | 0, g => some g
  | n + 1, g => (run sin15 d n g).bind (animate sin15 d)

/-- The object `n` frames after `setup`. -/
def frames (sin15 : Nat → ℚ) (d : Desc) (n : Nat) : Option SlotGame :=
  run sin15 d n (setup d)

end SlotGame

/-- The values of `sin (2 * π * t / 15)` for `t = 0 .. 15`, to seven decimals. -/
def sinTable (t : Nat) : ℚ :=
  (match t with
    | 1 => 4067366 | 2 => 7431448 | 3 => 9510565 | 4 => 9945219 | 5 => 8660254
    | 6 => 5877853 | 7 => 2079117 | 8 => -2079117 | 9 => -5877853 | 10 => -8660254
    | 11 => -9945219 | 12 => -9510565 | 13 => -7431448 | 14 => -4067366
    | _ => (0 : ℚ)) / 10000000

/-- The stop bump of the shipped tile size 222 at the stop counters `1 .. 15`. -/
def bumpTable (t : Nat) : Int :=
  match t with
  | 1 => 12 | 2 => 20 | 3 => 24 | 4 => 23 | 5 => 18 | 6 => 11 | 7 => 4 | 8 => 3
  | 9 => 7 | 10 => 9 | 11 => 8 | 12 => 6 | 13 => 3 | 14 => 1 | _ => 0

/-- Reel `i` is at rest: the machine is in Initial Delay, or in Staggered Stop with the
stop index past `i`, or at `i` with the stop counter past 15. -/
def Stopped (i : Nat) (g : SlotGame) : Prop :=
  g.state = Phase.phase1 ∨
  (g.state = Phase.phase4 ∧ (i < g.slot ∨ (i = g.slot ∧ 15 < g.slotTicks)))

/-- The stop of reel `r` fits a window that starts with the next frame of `g`, the reel
being at `y` before it: for some `f ≤ 5` the frames `1 .. f` lower the reel by 40 each
with the stop counter still 0, frame `f + 1` snaps it to the boundary
`y - y % tileSize` and starts the bump, and after frame `f + 16 ≤ 21` the stop counter is
16 with the reel on that boundary, the stop index still `r` and the tick counter at most 45. -/
def FitsWindow (sin15 : Nat → ℚ) (d : Desc) (g : SlotGame) (r : Nat) (y : Int) : Prop :=
  ∃ f, f ≤ 5 ∧ f + 16 ≤ 21 ∧
    (∀ j, 1 ≤ j → j ≤ f → ∃ gj, SlotGame.run sin15 d j g = some gj ∧
      gj.state = Phase.phase4 ∧ gj.slot = r ∧ gj.slotTicks = 0 ∧
      gj.slotSprites[r]? = some (y - 40 * (j : Int))) ∧
    (∃ gs, SlotGame.run sin15 d (f + 1) g = some gs ∧ gs.state = Phase.phase4 ∧
      gs.slot = r ∧ gs.slotTicks = 1 ∧ gs.nearestY = y - Int.tmod y d.tileSize ∧
      gs.slotSprites[r]? = some gs.nearestY) ∧
    (∃ ge, SlotGame.run sin15 d (f + 16) g = some ge ∧ ge.state = Phase.phase4 ∧
      ge.slot = r ∧ ge.slotTicks = 16 ∧ ge.nearestY = y - Int.tmod y d.tileSize ∧
      ge.slotSprites[r]? = some ge.nearestY ∧ ge.ticks ≤ 45)

/-- Accuracy of the sine: `sin15 t` agrees with `sin (2 * π * t / 15)` to six decimals,
for the stop counters `t ≤ 15` the program uses. -/
def SinAccurate (sin15 : Nat → ℚ) : Prop :=
  ∀ t, t ≤ 15 → |sin15 t - sinTable t| ≤ 1 / 1000000

/-- The stop bump never exceeds 26 pixels, the height of the initial bump. -/
def BumpBounded (sin15 : Nat → ℚ) (d : Desc) : Prop :=
  ∀ t, 1 ≤ t → t ≤ 15 → SlotGame.bump sin15 d t ≤ 26

/-- The clock of one animation cycle with `N` reels: phase, tick counter and stop index
`n` frames after a state in Initial Delay with tick counter 0. -/
structure OnSchedule (N n : Nat) (g : SlotGame) : Prop where
  reels : g.slotSprites.length = N
  delay : n ≤ 30 → g.state = Phase.phase1 ∧ g.ticks = n
  rise : 31 ≤ n → n ≤ 43 → g.state = Phase.phase2 ∧ g.ticks = n - 31
  spin : 44 ≤ n → n ≤ 134 → g.state = Phase.phase3 ∧ g.ticks = n - 44
  stop : 135 ≤ n → n < 135 + 46 * N →
    g.state = Phase.phase4 ∧ g.slot = (n - 135) / 46 ∧ g.ticks = (n - 135) % 46
  back : n = 135 + 46 * N → g.state = Phase.phase1 ∧ g.ticks = 0

/-- The invariant of the animation for the shipped tile geometry (`tileSize = 222`, six
sprites, so `endY = 222` and `startY = 1554`).  The upper bounds are the part that
depends on the sine, through `BumpBounded`. -/
structure ReelInv (sin15 : Nat → ℚ) (d : Desc) (g : SlotGame) : Prop where
  reels : 0 < g.slotSprites.length
  low : ∀ (i : Nat) (y : Int), g.slotSprites[i]? = some y → 222 ≤ y
  up : BumpBounded sin15 d → ∀ (i : Nat) (y : Int), g.slotSprites[i]? = some y → y ≤ 1580
  rest : g.state = Phase.phase1 →
    ∀ (i : Nat) (y : Int), g.slotSprites[i]? = some y → y % 222 = 0
  rise : g.state = Phase.phase2 → g.ticks ≤ 12 ∧
    (BumpBounded sin15 d →
      ∀ (i : Nat) (y : Int), g.slotSprites[i]? = some y → y ≤ 1554 + 2 * g.ticks)
  cur : g.state = Phase.phase4 → g.slot < g.slotSprites.length ∧ g.ticks ≤ 45
  stopped : g.state = Phase.phase4 →
    ∀ (i : Nat) (y : Int), i < g.slot → g.slotSprites[i]? = some y → y % 222 = 0
  far : g.state = Phase.phase4 → g.slotTicks = 0 →
    ∀ y : Int, g.slotSprites[g.slot]? = some y → y % 222 + 40 * g.ticks ≤ 221
  bumping : g.state = Phase.phase4 → 1 ≤ g.slotTicks →
    g.slotTicks ≤ 16 ∧ g.nearestY % 222 = 0 ∧ 222 ≤ g.nearestY ∧
    (BumpBounded sin15 d → g.nearestY ≤ 1554) ∧
    (g.slotTicks = 16 ∨ g.ticks ≤ g.slotTicks + 5) ∧
    (g.slotTicks = 16 → g.slotSprites[g.slot]? = some g.nearestY)

namespace SlotGame

/-! ## Elementary facts about `wrap` and the loops -/

theorem startY_sub_endY (d : Desc) :
    d.startY - d.endY = (d.spriteCount : Int) * d.tileSize := by
  simp only [Desc.startY, Desc.endY, Desc.itemCount]
  push_cast
  ring

theorem wrap_of_ge (d : Desc) (y : Int) (h : d.endY ≤ y) : wrap d y = y := by
  unfold wrap
  rw [if_neg (by omega)]

theorem wrap_of_lt (d : Desc) (y : Int) (h : y < d.endY) :
    wrap d y = d.startY - (d.endY - y) := by
  unfold wrap
  rw [if_pos h]

theorem wrap_sub_self (d : Desc) (y : Int) :
    wrap d y - y = 0 ∨ wrap d y - y = (d.spriteCount : Int) * d.tileSize := by
  by_cases h : y < d.endY
  · right
    rw [wrap_of_lt d y h, ← startY_sub_endY]
    ring
  · left
    rw [wrap_of_ge d y (by omega)]
    ring

theorem length_spinFrom (d : Desc) (k : Nat) (l : List Int) :
    (spinFrom d k l).length = l.length := by
  induction l generalizing k with
  | nil => cases k <;> rfl
  | cons y ys ih => cases k <;> simp [spinFrom, ih]

theorem getElem?_spinFrom (d : Desc) (k : Nat) (l : List Int) (i : Nat) :
    (spinFrom d k l)[i]? = (l[i]?).map (fun y => if k ≤ i then wrap d (y - 40) else y) := by
  induction l generalizing k i with
  | nil => cases k <;> simp [spinFrom]
  | cons y ys ih =>
    cases k with
    | zero =>
      cases i with
      | zero => simp [spinFrom]
      | succ j => simpa [spinFrom] using ih 0 j
    | succ k =>
      cases i with
      | zero => simp [spinFrom]
      | succ j => simpa [spinFrom] using ih k j

theorem spinFrom_zero (d : Desc) (l : List Int) :
    spinFrom d 0 l = l.map (fun y => wrap d (y - 40)) := by
  induction l with
  | nil => rfl
  | cons y ys ih => simp [spinFrom, ih]

end SlotGame

namespace SlotGame

/-! ## One frame of each phase -/

theorem animate_phase1 (sin15 : Nat → ℚ) (d : Desc) (g : SlotGame)
    (h : g.state = Phase.phase1) :
    animate sin15 d g = some
      (if 30 < g.ticks + 1 then { g with ticks := 0, state := Phase.phase2 }
       else { g with ticks := g.ticks + 1 }) := by
  simp only [animate, h, phase1, gt_iff_lt]

theorem animate_phase2 (sin15 : Nat → ℚ) (d : Desc) (g : SlotGame)
    (h : g.state = Phase.phase2) :
    animate sin15 d g = some
      (if 12 < g.ticks + 1 then
        { g with ticks := 0, state := Phase.phase3, slotSprites := g.slotSprites.map (bumpUp d) }
       else { g with ticks := g.ticks + 1, slotSprites := g.slotSprites.map (bumpUp d) }) := by
  simp only [animate, h, phase2, gt_iff_lt]
  split <;> rfl

theorem animate_phase3 (sin15 : Nat → ℚ) (d : Desc) (g : SlotGame)
    (h : g.state = Phase.phase3) :
    animate sin15 d g = some
      (if 90 < g.ticks + 1 then
        { g with ticks := 0, state := Phase.phase4, slot := 0, slotTicks := 0,
                 slotSprites := g.slotSprites.map (fun y => wrap d (y - 40)) }
       else { g with ticks := g.ticks + 1,
                     slotSprites := g.slotSprites.map (fun y => wrap d (y - 40)) }) := by
  simp only [animate, h, phase3, gt_iff_lt]
  split <;> rfl

theorem animate_phase4 (sin15 : Nat → ℚ) (d : Desc) (g : SlotGame)
    (h : g.state = Phase.phase4) :
    animate sin15 d g =
      if 45 < g.ticks + 1 then
        if g.slot + 1 = g.slotSprites.length then
          some { g with ticks := 0, state := Phase.phase1 }
        else phase4Body sin15 d { g with ticks := 0, slot := g.slot + 1, slotTicks := 0 }
      else phase4Body sin15 d { g with ticks := g.ticks + 1 } := by
  simp only [animate, h, phase4, gt_iff_lt]
  by_cases h1 : 45 < g.ticks + 1
  · rw [if_pos h1, if_pos h1]
    by_cases h2 : g.slot + 1 = g.slotSprites.length
    · rw [if_pos h2, if_pos (by omega)]
    · rw [if_neg h2, if_neg (by omega)]
  · rw [if_neg h1, if_neg h1]

/-- What `stopCurrent` leaves alone. -/
theorem stopCurrent_frame (sin15 : Nat → ℚ) (d : Desc) (g g1 : SlotGame)
    (h : stopCurrent sin15 d g = some g1) :
    g1.state = g.state ∧ g1.ticks = g.ticks ∧ g1.slot = g.slot ∧
    g1.slotSprites.length = g.slotSprites.length ∧
    (∀ i, i ≠ g.slot → g1.slotSprites[i]? = g.slotSprites[i]?) ∧
    (15 < g.slotTicks → g1 = g) := by
  unfold stopCurrent at h
  by_cases h0 : g.slotTicks = 0
  · rw [if_pos h0] at h
    cases hy : g.slotSprites[g.slot]? with
    | none => rw [hy] at h; cases h
    | some y =>
      rw [hy] at h
      simp only at h
      split at h <;> cases h <;>
        refine ⟨rfl, rfl, rfl, by simp, ?_, by omega⟩ <;>
        intro i hi <;> simp [List.getElem?_set, Ne.symm hi]
  · rw [if_neg h0] at h
    by_cases h15 : g.slotTicks ≤ 15
    · rw [if_pos h15] at h
      split at h
      · cases h
        refine ⟨rfl, rfl, rfl, by simp, ?_, by omega⟩
        intro i hi
        simp [List.getElem?_set, Ne.symm hi]
      · cases h
    · rw [if_neg h15] at h
      cases h
      exact ⟨rfl, rfl, rfl, rfl, fun _ _ => rfl, fun _ => rfl⟩

theorem stopCurrent_isSome (sin15 : Nat → ℚ) (d : Desc) (g : SlotGame)
    (h : g.slot < g.slotSprites.length) : ∃ g1, stopCurrent sin15 d g = some g1 := by
  unfold stopCurrent
  by_cases h0 : g.slotTicks = 0
  · rw [if_pos h0, List.getElem?_eq_getElem h]
    simp only
    split <;> exact ⟨_, rfl⟩
  · rw [if_neg h0]
    split
    · exact ⟨_, rfl⟩
    · exact ⟨_, rfl⟩

/-- What the body of `phase4` does to every reel but the current one. -/
theorem phase4Body_frame (sin15 : Nat → ℚ) (d : Desc) (g g2 : SlotGame)
    (h : phase4Body sin15 d g = some g2) :
    g2.state = g.state ∧ g2.ticks = g.ticks ∧ g2.slot = g.slot ∧
    g2.slotSprites.length = g.slotSprites.length ∧
    (∀ i, i < g.slot → g2.slotSprites[i]? = g.slotSprites[i]?) ∧
    (∀ i, g.slot < i →
      g2.slotSprites[i]? = (g.slotSprites[i]?).map (fun y => wrap d (y - 40))) ∧
    (15 < g.slotTicks →
      g2.slotSprites[g.slot]? = g.slotSprites[g.slot]? ∧ g2.slotTicks = g.slotTicks) := by
  unfold phase4Body at h
  cases h1 : stopCurrent sin15 d g with
  | none => rw [h1] at h; cases h
  | some g1 =>
    rw [h1] at h
    simp only [Option.map_some', Option.some.injEq] at h
    obtain ⟨hs, ht, hsl, hlen, hother, hdone⟩ := stopCurrent_frame sin15 d g g1 h1
    subst h
    refine ⟨hs, ht, hsl, by simp [length_spinFrom, hlen], ?_, ?_, ?_⟩
    · intro i hi
      simp only [getElem?_spinFrom, hsl]
      rw [hother i (by omega)]
      cases g.slotSprites[i]? with
      | none => rfl
      | some y => simp; omega
    · intro i hi
      simp only [getElem?_spinFrom, hsl]
      rw [hother i (by omega)]
      cases g.slotSprites[i]? with
      | none => rfl
      | some y => simp; omega
    · intro h15
      rw [hdone h15]
      simp only [getElem?_spinFrom]
      cases g.slotSprites[g.slot]? with
      | none => simp
      | some y => simp

theorem phase4Body_isSome (sin15 : Nat → ℚ) (d : Desc) (g : SlotGame)
    (h : g.slot < g.slotSprites.length) : ∃ g2, phase4Body sin15 d g = some g2 := by
  obtain ⟨g1, h1⟩ := stopCurrent_isSome sin15 d g h
  exact ⟨_, by rw [phase4Body, h1]; rfl⟩

end SlotGame

namespace SlotGame

/-! ## The wrap function -/

/-- C4: `wrap y` is `y` for `y ≥ endY` and `startY - (endY - y)` for `y < endY`; when the
cyclic range `startY - endY` is at least one step of 40 (it is 1332 in the shipped
configuration) every `y` with `endY - 40 ≤ y ≤ startY` is mapped into `[endY, startY]`. -/
theorem wrap_spec (d : Desc) (y : Int) :
    (d.endY ≤ y → wrap d y = y) ∧
    (y < d.endY → wrap d y = d.startY - (d.endY - y)) ∧
    (40 ≤ d.startY - d.endY → d.endY - 40 ≤ y → y ≤ d.startY →
      d.endY ≤ wrap d y ∧ wrap d y ≤ d.startY) := by
  refine ⟨wrap_of_ge d y, wrap_of_lt d y, ?_⟩
  intro hd hlo hhi
  by_cases h : y < d.endY
  · rw [wrap_of_lt d y h]
    constructor <;> omega
  · rw [wrap_of_ge d y (by omega)]
    constructor <;> omega

/-- C4, shipped configuration: an offset of 200 (222 minus 22) wraps to 1532, inside
`[222, 1554]`. -/
theorem wrap_spec_witness :
    wrap FOURKINGS 200 = FOURKINGS.startY - (FOURKINGS.endY - 200) ∧
    FOURKINGS.endY ≤ wrap FOURKINGS 200 ∧ wrap FOURKINGS 200 ≤ FOURKINGS.startY :=
  ⟨(wrap_spec FOURKINGS 200).2.1 (by decide),
   (wrap_spec FOURKINGS 200).2.2 (by decide) (by decide) (by decide)⟩

/-- C5: `wrap y - y` is `0` or `startY - endY = K * tileSize` (`K` the number of distinct
tiles), hence a multiple of `tileSize`, and `wrap y` has the same remainder modulo
`tileSize` as `y`; for `y ≥ 0` and `tileSize ≥ 0` also the same JavaScript remainder `%`. -/
theorem wrap_preserves_remainder (d : Desc) (y : Int) :
    (wrap d y - y = 0 ∨ wrap d y - y = d.startY - d.endY) ∧
    d.startY - d.endY = (d.spriteCount : Int) * d.tileSize ∧
    d.tileSize ∣ wrap d y - y ∧
    wrap d y % d.tileSize = y % d.tileSize ∧
    (0 ≤ y → 0 ≤ d.tileSize → Int.tmod (wrap d y) d.tileSize = Int.tmod y d.tileSize) := by
  have hK := startY_sub_endY d
  have h01 := wrap_sub_self d y
  have hdvd : d.tileSize ∣ wrap d y - y := by
    rcases h01 with h | h
    · rw [h]; exact dvd_zero _
    · rw [h]; exact Dvd.intro_left _ rfl
  have hmod : wrap d y % d.tileSize = y % d.tileSize :=
    Int.emod_eq_emod_iff_emod_sub_eq_zero.mpr (Int.emod_eq_zero_of_dvd hdvd)
  refine ⟨?_, hK, hdvd, hmod, ?_⟩
  · rcases h01 with h | h
    · exact Or.inl h
    · exact Or.inr (by rw [h, hK])
  · intro hy ht
    have hw : 0 ≤ wrap d y := by
      rcases h01 with h | h
      · omega
      · have : 0 ≤ (d.spriteCount : Int) * d.tileSize :=
          mul_nonneg (Int.ofNat_nonneg _) ht
        omega
    rw [Int.tmod_eq_emod hw ht, Int.tmod_eq_emod hy ht, hmod]

/-- C5, shipped configuration: 200 and its wrapped offset 1532 both leave remainder 200. -/
theorem wrap_preserves_remainder_witness :
    Int.tmod (wrap FOURKINGS 200) FOURKINGS.tileSize = Int.tmod 200 FOURKINGS.tileSize :=
  (wrap_preserves_remainder FOURKINGS 200).2.2.2.2 (by decide) (by decide)

end SlotGame

namespace SlotGame

/-! ## Frame effects -/

theorem bump_fifteen (sin15 : Nat → ℚ) (d : Desc) : bump sin15 d 15 = 0 := by
  simp only [bump, jsRound]
  norm_num

/-- C7: a frame executed while the phase is Full Spin returns, whatever the tick count, and
sets every reel's offset to `wrap (old - 40)`, which is `old - 40` or `old - 40` plus
the cyclic range `startY - endY`. -/
theorem fullSpin_step (sin15 : Nat → ℚ) (d : Desc) (g : SlotGame)
    (h : g.state = Phase.phase3) :
    ∃ g', animate sin15 d g = some g' ∧
      g'.slotSprites = g.slotSprites.map (fun y => wrap d (y - 40)) ∧
      ∀ (i : Nat) (y : Int), g.slotSprites[i]? = some y →
        g'.slotSprites[i]? = some (wrap d (y - 40)) ∧
        (wrap d (y - 40) = y - 40 ∨ wrap d (y - 40) = y - 40 + (d.startY - d.endY)) := by
  rw [animate_phase3 sin15 d g h]
  refine ⟨_, rfl, ?_, ?_⟩
  · split <;> rfl
  · intro i y hy
    constructor
    · split <;> simp [List.getElem?_map, hy]
    · rcases wrap_sub_self d (y - 40) with h0 | h1
      · left; omega
      · right; rw [startY_sub_endY]; omega

/-- C7 on the first Full Spin frame of the shipped machine: five reels at 1580 all move
to 1540. -/
theorem fullSpin_step_witness :
    ∃ g', animate sinTable FOURKINGS
        ⟨Phase.phase3, 0, 0, 0, 0, [1580, 1580, 1580, 1580, 1580]⟩ = some g' ∧
      g'.slotSprites =
        ([1580, 1580, 1580, 1580, 1580] : List Int).map (fun y => wrap FOURKINGS (y - 40)) ∧
      ∀ (i : Nat) (y : Int), ([1580, 1580, 1580, 1580, 1580] : List Int)[i]? = some y →
        g'.slotSprites[i]? = some (wrap FOURKINGS (y - 40)) ∧
        (wrap FOURKINGS (y - 40) = y - 40 ∨
          wrap FOURKINGS (y - 40) = y - 40 + (FOURKINGS.startY - FOURKINGS.endY)) :=
  fullSpin_step sinTable FOURKINGS ⟨Phase.phase3, 0, 0, 0, 0, [1580, 1580, 1580, 1580, 1580]⟩ rfl

/-- C8: a frame executed while the phase is Staggered Stop returns when the stop index is
a reel index, and whenever it returns every reel whose index is greater than the stop
index after the frame gets offset `wrap (old - 40)`; the number of reels is unchanged. -/
theorem staggeredStop_rest_spin (sin15 : Nat → ℚ) (d : Desc) (g : SlotGame)
    (h : g.state = Phase.phase4) :
    (g.slot < g.slotSprites.length → ∃ g', animate sin15 d g = some g') ∧
    ∀ g', animate sin15 d g = some g' →
      g'.slotSprites.length = g.slotSprites.length ∧
      ∀ i, g'.slot < i →
        g'.slotSprites[i]? = (g.slotSprites[i]?).map (fun y => wrap d (y - 40)) := by
  rw [animate_phase4 sin15 d g h]
  constructor
  · intro hs
    by_cases h1 : 45 < g.ticks + 1
    · rw [if_pos h1]
      by_cases h2 : g.slot + 1 = g.slotSprites.length
      · rw [if_pos h2]; exact ⟨_, rfl⟩
      · rw [if_neg h2]
        exact phase4Body_isSome sin15 d _ (show g.slot + 1 < g.slotSprites.length by omega)
    · rw [if_neg h1]
      exact phase4Body_isSome sin15 d _ hs
  · intro g' hg'
    by_cases h1 : 45 < g.ticks + 1
    · rw [if_pos h1] at hg'
      by_cases h2 : g.slot + 1 = g.slotSprites.length
      · rw [if_pos h2] at hg'
        cases hg'
        refine ⟨rfl, ?_⟩
        intro i hi
        have hi' : g.slot < i := hi
        have hlen : g.slotSprites.length ≤ i := by omega
        show g.slotSprites[i]? = _
        rw [List.getElem?_eq_none hlen]
        rfl
      · rw [if_neg h2] at hg'
        obtain ⟨-, -, hsl, hlen, -, hrest, -⟩ := phase4Body_frame sin15 d _ g' hg'
        exact ⟨hlen, fun i hi => hrest i (by rw [hsl] at hi; exact hi)⟩
    · rw [if_neg h1] at hg'
      obtain ⟨-, -, hsl, hlen, -, hrest, -⟩ := phase4Body_frame sin15 d _ g' hg'
      exact ⟨hlen, fun i hi => hrest i (by rw [hsl] at hi; exact hi)⟩

/-- C8 on a shipped-size machine stopping reel 1 in mid-bump: reels 2, 3 and 4 step from
500, 230 and 1000 to 460, 1522 (wrapped) and 960. -/
theorem staggeredStop_rest_spin_witness :
    ∃ g', animate sinTable FOURKINGS ⟨Phase.phase4, 9, 1, 3, 444, [666, 464, 500, 230, 1000]⟩
        = some g' ∧
      g'.slotSprites.length = 5 ∧
      ∀ i, g'.slot < i →
        g'.slotSprites[i]? = (([666, 464, 500, 230, 1000] : List Int)[i]?).map
          (fun y => wrap FOURKINGS (y - 40)) :=
  let g : SlotGame := ⟨Phase.phase4, 9, 1, 3, 444, [666, 464, 500, 230, 1000]⟩
  let ⟨g', hg'⟩ := (staggeredStop_rest_spin sinTable FOURKINGS g rfl).1 (by decide)
  ⟨g', hg', (staggeredStop_rest_spin sinTable FOURKINGS g rfl).2 g' hg'⟩

end SlotGame

namespace SlotGame

/-- A reel at rest keeps its offset over a frame, and is still at rest after it unless
the frame entered Initial Bump. -/
theorem stopped_step (sin15 : Nat → ℚ) (d : Desc) (g : SlotGame) (i : Nat)
    (hi : Stopped i g) (g' : SlotGame) (hg' : animate sin15 d g = some g') :
    g'.slotSprites[i]? = g.slotSprites[i]? ∧ (Stopped i g' ∨ g'.state = Phase.phase2) := by
  rcases hi with h1 | ⟨h4, hi⟩
  · rw [animate_phase1 sin15 d g h1] at hg'
    split at hg' <;> cases hg'
    · exact ⟨rfl, Or.inr rfl⟩
    · exact ⟨rfl, Or.inl (Or.inl h1)⟩
  · rw [animate_phase4 sin15 d g h4] at hg'
    by_cases c : 45 < g.ticks + 1
    · rw [if_pos c] at hg'
      by_cases e : g.slot + 1 = g.slotSprites.length
      · rw [if_pos e] at hg'
        cases hg'
        exact ⟨rfl, Or.inl (Or.inl rfl)⟩
      · rw [if_neg e] at hg'
        obtain ⟨hst, -, hsl, -, hlow, -, -⟩ := phase4Body_frame sin15 d _ g' hg'
        have hsl' : g'.slot = g.slot + 1 := hsl
        have hlt : i < g.slot + 1 := by omega
        exact ⟨hlow i hlt, Or.inl (Or.inr ⟨hst.trans h4, Or.inl (by omega)⟩)⟩
    · rw [if_neg c] at hg'
      obtain ⟨hst, -, hsl, -, hlow, -, hdone⟩ := phase4Body_frame sin15 d _ g' hg'
      have hsl' : g'.slot = g.slot := hsl
      rcases hi with hlt | ⟨rfl, h15⟩
      · exact ⟨hlow i hlt, Or.inl (Or.inr ⟨hst.trans h4, Or.inl (by omega)⟩)⟩
      · obtain ⟨hkeep, hcount⟩ := hdone h15
        have hcount' : g'.slotTicks = g.slotTicks := hcount
        exact ⟨hkeep, Or.inl (Or.inr ⟨hst.trans h4, Or.inr ⟨hsl'.symm, by omega⟩⟩)⟩

/-- C9: an Initial Delay frame returns and changes no reel offset.  A Staggered Stop frame
returns when the stop index is a reel index, and whenever it returns: every reel with
index below the stop index after the frame keeps its offset; if the stop counter had
passed 15 the current reel keeps its offset, and the counter stays as it is while the stop
index does; and the frame that returns to Initial Delay changes no reel offset.  So a
reel at rest keeps its offset over every frame and stays at rest until the frame that
enters Initial Bump. -/
theorem stopped_reels_keep (sin15 : Nat → ℚ) (d : Desc) (g : SlotGame) :
    (g.state = Phase.phase1 →
      ∃ g', animate sin15 d g = some g' ∧ g'.slotSprites = g.slotSprites) ∧
    (g.state = Phase.phase4 →
      (g.slot < g.slotSprites.length → ∃ g', animate sin15 d g = some g') ∧
      ∀ g', animate sin15 d g = some g' →
        (∀ i, i < g'.slot → g'.slotSprites[i]? = g.slotSprites[i]?) ∧
        (15 < g.slotTicks →
          g'.slotSprites[g.slot]? = g.slotSprites[g.slot]? ∧
          (g'.slot = g.slot → g'.slotTicks = g.slotTicks)) ∧
        (g'.state = Phase.phase1 → g'.slotSprites = g.slotSprites)) ∧
    (∀ i, Stopped i g → ∀ g', animate sin15 d g = some g' →
      g'.slotSprites[i]? = g.slotSprites[i]? ∧ (Stopped i g' ∨ g'.state = Phase.phase2)) := by
  refine ⟨?_, ?_, stopped_step sin15 d g⟩
  · intro h
    rw [animate_phase1 sin15 d g h]
    exact ⟨_, rfl, by split <;> rfl⟩
  · intro h
    rw [animate_phase4 sin15 d g h]
    constructor
    · intro hs
      by_cases h1 : 45 < g.ticks + 1
      · rw [if_pos h1]
        by_cases h2 : g.slot + 1 = g.slotSprites.length
        · rw [if_pos h2]; exact ⟨_, rfl⟩
        · rw [if_neg h2]
          exact phase4Body_isSome sin15 d _ (show g.slot + 1 < g.slotSprites.length by omega)
      · rw [if_neg h1]
        exact phase4Body_isSome sin15 d _ hs
    · intro g' hg'
      by_cases h1 : 45 < g.ticks + 1
      · rw [if_pos h1] at hg'
        by_cases h2 : g.slot + 1 = g.slotSprites.length
        · rw [if_pos h2] at hg'
          cases hg'
          exact ⟨fun _ _ => rfl, fun _ => ⟨rfl, fun _ => rfl⟩, fun _ => rfl⟩
        · rw [if_neg h2] at hg'
          obtain ⟨hst, -, hsl, -, hlow, -, -⟩ := phase4Body_frame sin15 d _ g' hg'
          have hsl' : g'.slot = g.slot + 1 := hsl
          refine ⟨fun i hi => hlow i (by rw [hsl'] at hi; exact hi), ?_, ?_⟩
          · intro _
            exact ⟨hlow g.slot (Nat.lt_succ_self _), fun hc => by omega⟩
          · intro hc
            rw [hst] at hc
            exact absurd (h.symm.trans hc) (by decide)
      · rw [if_neg h1] at hg'
        obtain ⟨hst, -, hsl, -, hlow, -, hdone⟩ := phase4Body_frame sin15 d _ g' hg'
        have hsl' : g'.slot = g.slot := hsl
        refine ⟨fun i hi => hlow i (by rw [hsl'] at hi; exact hi), ?_, ?_⟩
        · intro h15
          exact ⟨(hdone h15).1, fun _ => (hdone h15).2⟩
        · intro hc
          rw [hst] at hc
          exact absurd (h.symm.trans hc) (by decide)

/-- C9 on a shipped-size machine whose reel 1 has finished its bump at 444: the frame
leaves reels 0 and 1 where they are and the stop counter at 16. -/
theorem stopped_reels_keep_witness :
    ∃ g', animate sinTable FOURKINGS ⟨Phase.phase4, 30, 1, 16, 444, [666, 444, 500, 230, 1000]⟩
        = some g' ∧
      (∀ i, i < g'.slot → g'.slotSprites[i]? = ([666, 444, 500, 230, 1000] : List Int)[i]?) ∧
      g'.slotSprites[1]? = some 444 ∧ (g'.slot = 1 → g'.slotTicks = 16) :=
  let g : SlotGame := ⟨Phase.phase4, 30, 1, 16, 444, [666, 444, 500, 230, 1000]⟩
  let ⟨g', hg'⟩ := ((stopped_reels_keep sinTable FOURKINGS g).2.1 rfl).1 (by decide)
  have hk := ((stopped_reels_keep sinTable FOURKINGS g).2.1 rfl).2 g' hg'
  ⟨g', hg', hk.1, (hk.2.1 (by decide)).1, (hk.2.1 (by decide)).2⟩

/-- C10: the stop bump is exactly 0 at stop counter 15, for every tile size and whatever
value the sine takes, so a Staggered Stop frame that bumps with stop counter 15 (the
window is not over, the stop index is a reel index) returns and sets the current reel's
offset to the recorded boundary `nearestY`, leaving `nearestY` and moving the counter to 16. -/
theorem bump_at_bumpDelay (sin15 : Nat → ℚ) (d : Desc) :
    bump sin15 d 15 = 0 ∧
    ∀ g : SlotGame, g.state = Phase.phase4 → g.slotTicks = 15 → g.ticks < 45 →
      g.slot < g.slotSprites.length →
      ∃ g', animate sin15 d g = some g' ∧ g'.slotSprites[g.slot]? = some g.nearestY ∧
        g'.nearestY = g.nearestY ∧ g'.slotTicks = 16 ∧ g'.slot = g.slot := by
  refine ⟨bump_fifteen sin15 d, ?_⟩
  intro g h4 h15 ht hs
  rw [animate_phase4 sin15 d g h4, if_neg (by omega)]
  have hcur : stopCurrent sin15 d { g with ticks := g.ticks + 1 } =
      some { g with ticks := g.ticks + 1,
                    slotSprites := g.slotSprites.set g.slot g.nearestY, slotTicks := 16 } := by
    simp only [stopCurrent, h15, bump_fifteen]
    simp [hs]
  refine ⟨⟨g.state, g.ticks + 1, g.slot, 16, g.nearestY,
      spinFrom d (g.slot + 1) (g.slotSprites.set g.slot g.nearestY)⟩,
    by rw [phase4Body, hcur]; rfl, ?_, rfl, rfl, rfl⟩
  simp only [getElem?_spinFrom]
  simp [List.getElem?_set, hs]

/-- C10 on the shipped machine: reel 0, bumping around 444 with stop counter 15, lands
on 444. -/
theorem bump_at_bumpDelay_witness :
    ∃ g', animate sinTable FOURKINGS ⟨Phase.phase4, 20, 0, 15, 444, [445, 300, 500, 230, 1000]⟩
        = some g' ∧ g'.slotSprites[0]? = some 444 ∧
        g'.nearestY = 444 ∧ g'.slotTicks = 16 ∧ g'.slot = 0 :=
  (bump_at_bumpDelay sinTable FOURKINGS).2
    ⟨Phase.phase4, 20, 0, 15, 444, [445, 300, 500, 230, 1000]⟩ rfl rfl (by decide) (by decide)

end SlotGame

namespace SlotGame

/-! ## The reel strip -/

theorem getElem?_reelStrip (d : Desc) (p : List Nat) (i : Nat) (h : i < d.spriteCount + 5) :
    (reelStrip d p)[i]? = some p[i % d.spriteCount]? := by
  simp only [reelStrip, List.getElem?_map, Desc.itemCount]
  rw [List.getElem?_range h]
  rfl

/-- C6: the strip built in `setup` from any tile order `p` has `K + 5` rows, row `i` showing
`p[i mod K]`, and rows `i` and `i + K` show the same tile for `i = 0 .. 4`.  For a positive
tile size and an offset `y` with `0 ≤ y < endY`, the window at `wrap y` covers the rows of
the window at `y` shifted by `K`, the window at `y` starts at a row of the strip, and
every row `r` covered at `y` has its shifted row `r + K` inside the strip, showing the
same tile. -/
theorem wrap_seamless (d : Desc) (p : List Nat) (y : Int) (hT : 0 < d.tileSize)
    (hy0 : 0 ≤ y) (hy1 : y < d.endY) :
    (reelStrip d p).length = d.spriteCount + 5 ∧
    (∀ i, i < d.spriteCount + 5 → (reelStrip d p)[i]? = some p[i % d.spriteCount]?) ∧
    (∀ i, i ≤ 4 → (reelStrip d p)[i]? = (reelStrip d p)[i + d.spriteCount]?) ∧
    wrap d y / d.tileSize = y / d.tileSize + d.spriteCount ∧
    (wrap d y + 3 * d.tileSize - 1) / d.tileSize
      = (y + 3 * d.tileSize - 1) / d.tileSize + d.spriteCount ∧
    0 ≤ y / d.tileSize ∧
    ∀ r : Nat, y / d.tileSize ≤ r → (r : Int) ≤ (y + 3 * d.tileSize - 1) / d.tileSize →
      r + d.spriteCount < (reelStrip d p).length ∧
      (reelStrip d p)[r]? = some p[r % d.spriteCount]? ∧
      (reelStrip d p)[r + d.spriteCount]? = some p[r % d.spriteCount]? := by
  have hlen : (reelStrip d p).length = d.spriteCount + 5 := by
    simp [reelStrip, Desc.itemCount]
  have hrow : ∀ i, i ≤ 4 → (reelStrip d p)[i]? = some p[i % d.spriteCount]? ∧
      (reelStrip d p)[i + d.spriteCount]? = some p[i % d.spriteCount]? := by
    intro i hi
    constructor
    · exact getElem?_reelStrip d p i (by omega)
    · rw [getElem?_reelStrip d p (i + d.spriteCount) (by omega), Nat.add_mod_right]
  have hw : wrap d y = y + (d.spriteCount : Int) * d.tileSize := by
    rw [wrap_of_lt d y hy1, ← startY_sub_endY]
    ring
  have hT' : d.tileSize ≠ 0 := by omega
  refine ⟨hlen, getElem?_reelStrip d p, fun i hi => ?_, ?_, ?_,
    Int.ediv_nonneg hy0 (le_of_lt hT), ?_⟩
  · rw [(hrow i hi).1, (hrow i hi).2]
  · rw [hw, Int.add_mul_ediv_right _ _ hT']
  · rw [hw, show y + (d.spriteCount : Int) * d.tileSize + 3 * d.tileSize - 1
        = (y + 3 * d.tileSize - 1) + (d.spriteCount : Int) * d.tileSize by ring,
      Int.add_mul_ediv_right _ _ hT']
  · intro r _ hr
    have h4 : (y + 3 * d.tileSize - 1) / d.tileSize < 4 := by
      apply Int.ediv_lt_of_lt_mul hT
      simp only [Desc.endY] at hy1
      omega
    have hr4 : r ≤ 4 := by omega
    exact ⟨by rw [hlen]; omega, (hrow r hr4).1, (hrow r hr4).2⟩

/-- C6 on the shipped strip with tile order 3 1 4 0 5 2 and offset 200: the window at 200
covers rows 0 to 3, the window at the wrapped offset 1532 rows 6 to 9, with equal tiles. -/
theorem wrap_seamless_witness :
    wrap FOURKINGS 200 / 222 = 200 / 222 + 6 ∧
    ∀ r : Nat, (200 : Int) / 222 ≤ r → (r : Int) ≤ (200 + 3 * 222 - 1) / 222 →
      r + 6 < (reelStrip FOURKINGS [3, 1, 4, 0, 5, 2]).length ∧
      (reelStrip FOURKINGS [3, 1, 4, 0, 5, 2])[r]? = some [3, 1, 4, 0, 5, 2][r % 6]? ∧
      (reelStrip FOURKINGS [3, 1, 4, 0, 5, 2])[r + 6]? = some [3, 1, 4, 0, 5, 2][r % 6]? :=
  have h := wrap_seamless FOURKINGS [3, 1, 4, 0, 5, 2] 200 (by decide) (by decide) (by decide)
  ⟨h.2.2.2.1, h.2.2.2.2.2.2⟩

end SlotGame

namespace SlotGame

/-! ## The clock of a cycle -/

/-- The summary of `phase4Body` on a state whose stop index is a reel index: one of the
four ways the current reel is treated, and the rest spinning. -/
theorem phase4Body_cases (sin15 : Nat → ℚ) (d : Desc) (g : SlotGame) (y : Int)
    (hy : g.slotSprites[g.slot]? = some y) :
    ∃ g', phase4Body sin15 d g = some g' ∧
      g'.state = g.state ∧ g'.ticks = g.ticks ∧ g'.slot = g.slot ∧
      g'.slotSprites.length = g.slotSprites.length ∧
      (∀ i, i < g.slot → g'.slotSprites[i]? = g.slotSprites[i]?) ∧
      (∀ i, g.slot < i →
        g'.slotSprites[i]? = (g.slotSprites[i]?).map (fun y => wrap d (y - 40))) ∧
      ((g.slotTicks = 0 ∧ y - 40 > y - Int.tmod y d.tileSize ∧ g'.slotTicks = 0 ∧
          g'.nearestY = g.nearestY ∧ g'.slotSprites[g.slot]? = some (wrap d (y - 40))) ∨
       (g.slotTicks = 0 ∧ ¬ y - 40 > y - Int.tmod y d.tileSize ∧ g'.slotTicks = 1 ∧
          g'.nearestY = y - Int.tmod y d.tileSize ∧
          g'.slotSprites[g.slot]? = some (y - Int.tmod y d.tileSize)) ∨
       (1 ≤ g.slotTicks ∧ g.slotTicks ≤ 15 ∧ g'.slotTicks = g.slotTicks + 1 ∧
          g'.nearestY = g.nearestY ∧
          g'.slotSprites[g.slot]? = some (g.nearestY + bump sin15 d g.slotTicks)) ∨
       (15 < g.slotTicks ∧ g'.slotTicks = g.slotTicks ∧ g'.nearestY = g.nearestY ∧
          g'.slotSprites[g.slot]? = some y)) := by
  have hlt : g.slot < g.slotSprites.length := by
    by_contra hc
    rw [List.getElem?_eq_none (by omega)] at hy
    cases hy
  obtain ⟨g', hg'⟩ := phase4Body_isSome sin15 d g hlt
  obtain ⟨hst, htk, hsl, hlen, hlow, hrest, -⟩ := phase4Body_frame sin15 d g g' hg'
  refine ⟨g', hg', hst, htk, hsl, hlen, hlow, hrest, ?_⟩
  have hset : ∀ (v : Int) (l : List Int), l = g.slotSprites.set g.slot v →
      (spinFrom d (g.slot + 1) l)[g.slot]? = some v := by
    intro v l hl
    rw [getElem?_spinFrom, hl]
    simp [List.getElem?_set, hlt]
  unfold phase4Body stopCurrent at hg'
  by_cases h0 : g.slotTicks = 0
  · rw [if_pos h0, hy] at hg'
    simp only at hg'
    by_cases hfar : y - 40 > y - Int.tmod y d.tileSize
    · rw [if_pos hfar] at hg'
      simp only [Option.map_some', Option.some.injEq] at hg'
      subst hg'
      exact Or.inl ⟨h0, hfar, h0, rfl, hset _ _ rfl⟩
    · rw [if_neg hfar] at hg'
      simp only [Option.map_some', Option.some.injEq] at hg'
      subst hg'
      exact Or.inr (Or.inl ⟨h0, hfar, rfl, rfl, hset _ _ rfl⟩)
  · rw [if_neg h0] at hg'
    by_cases h15 : g.slotTicks ≤ 15
    · rw [if_pos h15, if_pos hlt] at hg'
      simp only [Option.map_some', Option.some.injEq] at hg'
      subst hg'
      exact Or.inr (Or.inr (Or.inl ⟨by omega, h15, rfl, rfl, hset _ _ rfl⟩))
    · rw [if_neg h15] at hg'
      simp only [Option.map_some', Option.some.injEq] at hg'
      subst hg'
      refine Or.inr (Or.inr (Or.inr ⟨by omega, rfl, rfl, ?_⟩))
      simp only [getElem?_spinFrom, hy]
      simp

theorem schedule_step (sin15 : Nat → ℚ) (d : Desc) (N n : Nat) (g : SlotGame)
    (hN : 0 < N) (h : OnSchedule N n g) (hn : n < 135 + 46 * N) :
    ∃ g', animate sin15 d g = some g' ∧ OnSchedule N (n + 1) g' := by
  obtain ⟨hlen, h1, h2, h3, h4, -⟩ := h
  by_cases c1 : n ≤ 30
  · obtain ⟨hs, ht⟩ := h1 c1
    refine ⟨_, animate_phase1 sin15 d g hs, ?_⟩
    by_cases c : 30 < g.ticks + 1
    · rw [if_pos c]
      exact ⟨hlen, fun _ => by omega, fun _ _ => ⟨rfl, show 0 = n + 1 - 31 by omega⟩,
        fun _ _ => by omega, fun _ _ => by omega, fun _ => by omega⟩
    · rw [if_neg c]
      exact ⟨hlen, fun _ => ⟨hs, show g.ticks + 1 = n + 1 by omega⟩, fun _ _ => by omega,
        fun _ _ => by omega, fun _ _ => by omega, fun _ => by omega⟩
  by_cases c2 : n ≤ 43
  · obtain ⟨hs, ht⟩ := h2 (by omega) c2
    refine ⟨_, animate_phase2 sin15 d g hs, ?_⟩
    by_cases c : 12 < g.ticks + 1
    · rw [if_pos c]
      exact ⟨by simp [hlen], fun _ => by omega, fun _ _ => by omega,
        fun _ _ => ⟨rfl, show 0 = n + 1 - 44 by omega⟩, fun _ _ => by omega, fun _ => by omega⟩
    · rw [if_neg c]
      exact ⟨by simp [hlen], fun _ => by omega,
        fun _ _ => ⟨hs, show g.ticks + 1 = n + 1 - 31 by omega⟩,
        fun _ _ => by omega, fun _ _ => by omega, fun _ => by omega⟩
  by_cases c3 : n ≤ 134
  · obtain ⟨hs, ht⟩ := h3 (by omega) c3
    refine ⟨_, animate_phase3 sin15 d g hs, ?_⟩
    by_cases c : 90 < g.ticks + 1
    · rw [if_pos c]
      exact ⟨by simp [hlen], fun _ => by omega, fun _ _ => by omega, fun _ _ => by omega,
        fun _ _ => ⟨rfl, show 0 = (n + 1 - 135) / 46 by omega,
          show 0 = (n + 1 - 135) % 46 by omega⟩, fun _ => by omega⟩
    · rw [if_neg c]
      exact ⟨by simp [hlen], fun _ => by omega, fun _ _ => by omega,
        fun _ _ => ⟨hs, show g.ticks + 1 = n + 1 - 44 by omega⟩, fun _ _ => by omega,
        fun _ => by omega⟩
  · obtain ⟨hs, hsl, ht⟩ := h4 (by omega) hn
    have hslot : g.slot < g.slotSprites.length := by omega
    rw [animate_phase4 sin15 d g hs]
    by_cases c : 45 < g.ticks + 1
    · rw [if_pos c]
      by_cases e : g.slot + 1 = g.slotSprites.length
      · rw [if_pos e]
        exact ⟨_, rfl, hlen, fun _ => by omega, fun _ _ => by omega, fun _ _ => by omega,
          fun _ _ => by omega, fun _ => ⟨rfl, rfl⟩⟩
      · rw [if_neg e]
        obtain ⟨g', hg'⟩ := phase4Body_isSome sin15 d
          { g with ticks := 0, slot := g.slot + 1, slotTicks := 0 }
          (show g.slot + 1 < g.slotSprites.length by omega)
        obtain ⟨hst', htk', hsl', hlen', -⟩ := phase4Body_frame sin15 d _ g' hg'
        have htk'' : g'.ticks = 0 := htk'
        have hsl'' : g'.slot = g.slot + 1 := hsl'
        have hst'' : g'.state = g.state := hst'
        have hlen'' : g'.slotSprites.length = g.slotSprites.length := hlen'
        exact ⟨g', hg', by omega, fun _ => by omega, fun _ _ => by omega, fun _ _ => by omega,
          fun _ _ => ⟨by rw [hst'', hs], by omega, by omega⟩, fun _ => by omega⟩
    · rw [if_neg c]
      obtain ⟨g', hg'⟩ := phase4Body_isSome sin15 d { g with ticks := g.ticks + 1 } hslot
      obtain ⟨hst', htk', hsl', hlen', -⟩ := phase4Body_frame sin15 d _ g' hg'
      have htk'' : g'.ticks = g.ticks + 1 := htk'
      have hsl'' : g'.slot = g.slot := hsl'
      have hst'' : g'.state = g.state := hst'
      have hlen'' : g'.slotSprites.length = g.slotSprites.length := hlen'
      exact ⟨g', hg', by omega, fun _ => by omega, fun _ _ => by omega, fun _ _ => by omega,
        fun _ _ => ⟨by rw [hst'', hs], by omega, by omega⟩, fun _ => by omega⟩

/-- A whole cycle from any state in Initial Delay with tick counter 0 and `N ≥ 1` reels. -/
theorem run_schedule (sin15 : Nat → ℚ) (d : Desc) (g0 : SlotGame)
    (hs : g0.state = Phase.phase1) (ht : g0.ticks = 0) (hN : 0 < g0.slotSprites.length)
    (n : Nat) (hn : n ≤ 135 + 46 * g0.slotSprites.length) :
    ∃ g, run sin15 d n g0 = some g ∧ OnSchedule g0.slotSprites.length n g := by
  induction n with
  | zero =>
    exact ⟨g0, rfl, rfl, fun _ => ⟨hs, ht⟩, fun _ _ => by omega, fun _ _ => by omega,
      fun _ _ => by omega, fun _ => by omega⟩
  | succ n ih =>
    obtain ⟨g, hg, hsch⟩ := ih (by omega)
    obtain ⟨g', hg', hsch'⟩ := schedule_step sin15 d _ n g hN hsch (by omega)
    exact ⟨g', by rw [run, hg]; exact hg', hsch'⟩

theorem ticks_zero_of_state_ne (sin15 : Nat → ℚ) (d : Desc) (g g' : SlotGame)
    (h : animate sin15 d g = some g') (hne : g'.state ≠ g.state) : g'.ticks = 0 := by
  cases hs : g.state with
  | phase1 =>
    rw [animate_phase1 sin15 d g hs] at h
    split at h <;> cases h
    · rfl
    · exact absurd rfl hne
  | phase2 =>
    rw [animate_phase2 sin15 d g hs] at h
    split at h <;> cases h
    · rfl
    · exact absurd rfl hne
  | phase3 =>
    rw [animate_phase3 sin15 d g hs] at h
    split at h <;> cases h
    · rfl
    · exact absurd rfl hne
  | phase4 =>
    rw [animate_phase4 sin15 d g hs] at h
    by_cases c : 45 < g.ticks + 1
    · rw [if_pos c] at h
      by_cases e : g.slot + 1 = g.slotSprites.length
      · rw [if_pos e] at h
        cases h
        rfl
      · rw [if_neg e] at h
        exact (phase4Body_frame sin15 d _ g' h).2.1
    · rw [if_neg c] at h
      exact absurd (phase4Body_frame sin15 d _ g' h).1 hne

end SlotGame

namespace SlotGame

/-- C3: with `N ≥ 1` reels, every one of the first `135 + 46 * N` frames after `setup`
returns, and the state after `n` frames is in Initial Delay with tick counter `n` for
`n ≤ 30` (31 frames run there), in Initial Bump for `31 ≤ n ≤ 43` (13 frames), in Full Spin
for `44 ≤ n ≤ 134` (91 frames), in Staggered Stop with stop index `(n - 135) / 46` and tick
counter `(n - 135) mod 46` for `135 ≤ n < 135 + 46 * N` (`N` windows of 46 frames), and
back in Initial Delay with tick counter 0 for `n = 135 + 46 * N`.  After any frame that
changes the phase the tick counter is 0. -/
theorem phase_sequence (sin15 : Nat → ℚ) (d : Desc) (hN : 0 < d.slotCount) :
    (∀ n, n ≤ 135 + 46 * d.slotCount →
      ∃ g, frames sin15 d n = some g ∧ g.slotSprites.length = d.slotCount ∧
        (n ≤ 30 → g.state = Phase.phase1 ∧ g.ticks = n) ∧
        (31 ≤ n → n ≤ 43 → g.state = Phase.phase2 ∧ g.ticks = n - 31) ∧
        (44 ≤ n → n ≤ 134 → g.state = Phase.phase3 ∧ g.ticks = n - 44) ∧
        (135 ≤ n → n < 135 + 46 * d.slotCount →
          g.state = Phase.phase4 ∧ g.slot = (n - 135) / 46 ∧ g.ticks = (n - 135) % 46) ∧
        (n = 135 + 46 * d.slotCount → g.state = Phase.phase1 ∧ g.ticks = 0)) ∧
    (∀ g g', animate sin15 d g = some g' → g'.state ≠ g.state → g'.ticks = 0) := by
  have hlen : (setup d).slotSprites.length = d.slotCount := by simp [setup]
  refine ⟨fun n hn => ?_, ticks_zero_of_state_ne sin15 d⟩
  obtain ⟨g, hg, hsch⟩ := run_schedule sin15 d (setup d) rfl rfl (by rw [hlen]; exact hN) n
    (by rw [hlen]; exact hn)
  rw [hlen] at hsch
  exact ⟨g, hg, hsch.reels, hsch.delay, hsch.rise, hsch.spin, hsch.stop, hsch.back⟩

/-- C3 on the shipped machine: its five reels bring it back to Initial Delay with tick
counter 0 after 135 + 46 * 5 = 365 frames. -/
theorem phase_sequence_witness :
    ∃ g, frames sinTable FOURKINGS 365 = some g ∧ g.state = Phase.phase1 ∧ g.ticks = 0 :=
  let ⟨g, hg, h⟩ := (phase_sequence sinTable FOURKINGS (by decide)).1 365 (by decide)
  ⟨g, hg, h.2.2.2.2.2 (by decide)⟩

end SlotGame

namespace SlotGame

/-! ## The shipped tile geometry -/

theorem wrap_shipped (d : Desc) (hT : d.tileSize = 222) (hK : d.sprites.length = 6)
    (y : Int) : wrap d y = if y < 222 then y + 1332 else y := by
  have hs : d.startY = 1554 := by
    simp [Desc.startY, Desc.itemCount, Desc.spriteCount, hT, hK]
  have he : d.endY = 222 := hT
  unfold wrap
  rw [hs, he]
  split <;> omega

theorem bumpUp_shipped (d : Desc) (hT : d.tileSize = 222) (y : Int) : bumpUp d y = y + 2 := by
  unfold bumpUp
  rw [hT, Int.floor_int_add]
  have h : ⌊((222 : Int) : ℚ) * (1 / 7) / 12⌋ = 2 := by
    rw [Int.floor_eq_iff]
    constructor <;> norm_num
  rw [h]

theorem bump_nonneg (sin15 : Nat → ℚ) (d : Desc) (t : Nat) (ht : t ≤ 15) :
    0 ≤ bump sin15 d t := by
  unfold bump jsRound
  apply Int.floor_nonneg.mpr
  have h1 : (0 : ℚ) ≤ 1 - (t : ℚ) / 15 := by
    have : (t : ℚ) ≤ 15 := by exact_mod_cast ht
    linarith
  have h2 : (0 : ℚ) ≤ |(d.tileSize : ℚ) / 7 * sin15 t| := abs_nonneg _
  have := mul_nonneg h1 h2
  linarith

theorem getElem?_map_some {f : Int → Int} {l : List Int} {i : Nat} {z : Int}
    (h : (l.map f)[i]? = some z) : ∃ y, l[i]? = some y ∧ z = f y := by
  rw [List.getElem?_map] at h
  cases hy : l[i]? with
  | none => rw [hy] at h; cases h
  | some y =>
    rw [hy] at h
    exact ⟨y, rfl, by cases h; rfl⟩

theorem option_map_some {f : Int → Int} {o : Option Int} {z : Int}
    (h : o.map f = some z) : ∃ y, o = some y ∧ z = f y := by
  cases o with
  | none => cases h
  | some y => exact ⟨y, rfl, by cases h; rfl⟩

end SlotGame

namespace SlotGame

/-! ## The invariant is kept by every frame -/

theorem wrap_step_bounds (d : Desc) (hT : d.tileSize = 222) (hK : d.sprites.length = 6)
    (y : Int) (hlo : 222 ≤ y) :
    222 ≤ wrap d (y - 40) ∧ (y ≤ 1580 → wrap d (y - 40) ≤ 1580) := by
  rw [wrap_shipped d hT hK]
  split <;> constructor <;> omega

/-- The body of `phase4` keeps the invariant; the tick counter of the invariant is the one
before the frame (`ticks - 1`, which is 0 again on the frame that advances the stop index). -/
theorem body_inv (sin15 : Nat → ℚ) (d : Desc) (hT : d.tileSize = 222)
    (hK : d.sprites.length = 6) (g0 : SlotGame)
    (h : ReelInv sin15 d
      ⟨g0.state, g0.ticks - 1, g0.slot, g0.slotTicks, g0.nearestY, g0.slotSprites⟩)
    (hs : g0.state = Phase.phase4) (ht : g0.ticks ≤ 45) :
    ∃ g', phase4Body sin15 d g0 = some g' ∧ ReelInv sin15 d g' := by
  obtain ⟨hreels, hlow, hup, -, -, hcur, hstopped, hfar, hbump⟩ := h
  simp only at hreels hlow hup hcur hstopped hfar hbump
  have hslot : g0.slot < g0.slotSprites.length := (hcur hs).1
  have hy : g0.slotSprites[g0.slot]? = some (g0.slotSprites[g0.slot]) :=
    List.getElem?_eq_getElem hslot
  generalize g0.slotSprites[g0.slot] = y at hy
  have hy222 : 222 ≤ y := hlow _ _ hy
  obtain ⟨g', hg', hst, htk, hsl, hlen, hbelow, habove, hcases⟩ :=
    phase4Body_cases sin15 d g0 y hy
  have htm : Int.tmod y 222 = y % 222 := Int.tmod_eq_emod (by omega) (by norm_num)
  rw [hT, htm] at hcases
  have hwfar : y - 40 > y - y % 222 → wrap d (y - 40) = y - 40 := by
    intro hf
    rw [wrap_shipped d hT hK, if_neg (by omega)]
  -- the current reel after the frame
  have hcurrent : ∃ z, g'.slotSprites[g0.slot]? = some z ∧ 222 ≤ z ∧
      (BumpBounded sin15 d → z ≤ 1580) ∧
      (g'.slotTicks = 0 → z % 222 + 40 * g0.ticks ≤ 221) ∧
      (1 ≤ g'.slotTicks →
        g'.slotTicks ≤ 16 ∧ g'.nearestY % 222 = 0 ∧ 222 ≤ g'.nearestY ∧
        (BumpBounded sin15 d → g'.nearestY ≤ 1554) ∧
        (g'.slotTicks = 16 ∨ g'.ticks ≤ g'.slotTicks + 5) ∧
        (g'.slotTicks = 16 → z = g'.nearestY)) := by
    rcases hcases with ⟨h0, hf, h0', hn, hz⟩ | ⟨h0, hf, h1', hn, hz⟩ |
        ⟨h1, h15, hs', hn, hz⟩ | ⟨h16, hs', hn, hz⟩
    · have hfar' := hfar hs h0 y hy
      refine ⟨_, hz, ?_, ?_, ?_, ?_⟩
      · rw [hwfar hf]; omega
      · intro hb
        have := hup hb _ _ hy
        rw [hwfar hf]; omega
      · intro _
        rw [hwfar hf]; omega
      · intro hc; omega
    · have hfar' := hfar hs h0 y hy
      refine ⟨_, hz, by omega, ?_, fun hc => by omega, ?_⟩
      · intro hb
        have := hup hb _ _ hy
        omega
      · intro _
        rw [h1', hn, htk]
        refine ⟨by omega, by omega, by omega, ?_, Or.inr (by omega), fun hc => by omega⟩
        intro hb
        have := hup hb _ _ hy
        omega
    · obtain ⟨-, hn0, hn222, hnup, htick, -⟩ := hbump hs h1
      have hb0 := bump_nonneg sin15 d g0.slotTicks h15
      refine ⟨_, hz, by omega, ?_, fun hc => by omega, ?_⟩
      · intro hb
        have := hnup hb
        have := hb g0.slotTicks h1 h15
        omega
      · intro _
        rw [hs', hn, htk]
        refine ⟨by omega, hn0, hn222, hnup, ?_, ?_⟩
        · rcases htick with h | h
          · omega
          · right; omega
        · intro hc
          have : g0.slotTicks = 15 := by omega
          rw [this, bump_fifteen]
          omega
    · obtain ⟨hle, hn0, hn222, hnup, htick, hrest⟩ := hbump hs (by omega)
      have h16' : g0.slotTicks = 16 := by omega
      have hyn : y = g0.nearestY := by
        have := hrest h16'
        rw [hy] at this
        exact Option.some.inj this
      refine ⟨_, hz, hy222, fun hb => hup hb _ _ hy, fun hc => by omega, ?_⟩
      intro _
      rw [hs', hn]
      exact ⟨hle, hn0, hn222, hnup, Or.inl h16', fun _ => hyn⟩
  obtain ⟨z, hz, hz222, hzup, hzfar, hzbump⟩ := hcurrent
  -- every reel after the frame
  have hall : ∀ (i : Nat) (w : Int), g'.slotSprites[i]? = some w →
      222 ≤ w ∧ (BumpBounded sin15 d → w ≤ 1580) := by
    intro i w hw
    rcases Nat.lt_trichotomy i g0.slot with hi | hi | hi
    · rw [hbelow i hi] at hw
      exact ⟨hlow _ _ hw, fun hb => hup hb _ _ hw⟩
    · rw [hi, hz] at hw
      cases hw
      exact ⟨hz222, hzup⟩
    · rw [habove i hi] at hw
      obtain ⟨y0, hy0, rfl⟩ := option_map_some hw
      have hb := wrap_step_bounds d hT hK y0 (hlow _ _ hy0)
      exact ⟨hb.1, fun hbb => hb.2 (hup hbb _ _ hy0)⟩
  refine ⟨g', hg', ?_⟩
  constructor
  · rw [hlen]; exact hreels
  · exact fun i w hw => (hall i w hw).1
  · exact fun hb i w hw => (hall i w hw).2 hb
  · intro hc
    rw [hst, hs] at hc
    cases hc
  · intro hc
    rw [hst, hs] at hc
    cases hc
  · intro _
    rw [hsl, hlen, htk]
    exact ⟨hslot, ht⟩
  · intro _ i w hi hw
    rw [hsl] at hi
    rw [hbelow i hi] at hw
    exact hstopped hs i w hi hw
  · intro _ h0 w hw
    rw [hsl, hz] at hw
    cases hw
    rw [htk]
    exact hzfar h0
  · intro _ h1
    obtain ⟨a, b, c, e, f, k⟩ := hzbump h1
    refine ⟨a, b, c, e, f, ?_⟩
    intro h16
    rw [hsl, hz, k h16]

end SlotGame

namespace SlotGame

theorem inv_setup (sin15 : Nat → ℚ) (d : Desc) (hT : d.tileSize = 222)
    (hK : d.sprites.length = 6) (hN : 0 < d.slotCount) : ReelInv sin15 d (setup d) := by
  have hs : d.startY = 1554 := by
    simp [Desc.startY, Desc.itemCount, Desc.spriteCount, hT, hK]
  have hall : ∀ (i : Nat) (y : Int), (setup d).slotSprites[i]? = some y → y = 1554 := by
    intro i y hy
    simp only [setup, List.getElem?_replicate, hs] at hy
    split at hy
    · cases hy; rfl
    · cases hy
  constructor
  · simpa [setup] using hN
  · intro i y hy; rw [hall i y hy]; norm_num
  · intro _ i y hy; rw [hall i y hy]; norm_num
  · intro _ i y hy; rw [hall i y hy]; norm_num
  · intro hc; cases hc
  · intro hc; cases hc
  · intro hc; cases hc
  · intro hc; cases hc
  · intro hc; cases hc

/-- The reel that is current when a stop window runs out (tick counter 45) has finished
its bump and rests on a tile boundary. -/
theorem window_end_rest (sin15 : Nat → ℚ) (d : Desc) (g : SlotGame)
    (h : ReelInv sin15 d g) (hs : g.state = Phase.phase4) (ht : 45 < g.ticks + 1) :
    ∀ y : Int, g.slotSprites[g.slot]? = some y → y % 222 = 0 := by
  intro y hy
  have ht45 := (h.cur hs).2
  by_cases h0 : g.slotTicks = 0
  · have := h.far hs h0 y hy
    omega
  · obtain ⟨hle, hn0, -, -, htick, hrest⟩ := h.bumping hs (by omega)
    have h16 : g.slotTicks = 16 := by omega
    have := hrest h16
    rw [hy] at this
    cases this
    exact hn0

theorem inv_step (sin15 : Nat → ℚ) (d : Desc) (hT : d.tileSize = 222)
    (hK : d.sprites.length = 6) (g : SlotGame) (h : ReelInv sin15 d g) :
    ∃ g', animate sin15 d g = some g' ∧ ReelInv sin15 d g' := by
  cases hs : g.state with
  | phase1 =>
    have hne : ∀ p : Phase, p ≠ Phase.phase1 → g.state ≠ p :=
      fun p hp hc => hp (hc.symm.trans hs)
    refine ⟨_, animate_phase1 sin15 d g hs, ?_⟩
    by_cases c : 30 < g.ticks + 1
    · rw [if_pos c]
      refine ⟨h.reels, h.low, h.up, fun hc => (by cases hc), fun _ => ⟨Nat.zero_le _, ?_⟩,
        fun hc => (by cases hc), fun hc => (by cases hc), fun hc => (by cases hc),
        fun hc => (by cases hc)⟩
      intro hb i y hy
      have h1 := h.rest hs i y hy
      have h2 := h.up hb i y hy
      show y ≤ 1554 + 2 * ((0 : Nat) : Int)
      omega
    · rw [if_neg c]
      exact ⟨h.reels, h.low, h.up, fun _ => h.rest hs, fun hc => absurd hc (hne _ (by decide)),
        fun hc => absurd hc (hne _ (by decide)), fun hc => absurd hc (hne _ (by decide)),
        fun hc => absurd hc (hne _ (by decide)), fun hc => absurd hc (hne _ (by decide))⟩
  | phase2 =>
    have hne : ∀ p : Phase, p ≠ Phase.phase2 → g.state ≠ p :=
      fun p hp hc => hp (hc.symm.trans hs)
    refine ⟨_, animate_phase2 sin15 d g hs, ?_⟩
    obtain ⟨ht, hrise⟩ := h.rise hs
    have hmap : ∀ (i : Nat) (z : Int), (g.slotSprites.map (bumpUp d))[i]? = some z →
        ∃ y, g.slotSprites[i]? = some y ∧ z = y + 2 := by
      intro i z hz
      obtain ⟨y, hy, rfl⟩ := getElem?_map_some hz
      exact ⟨y, hy, bumpUp_shipped d hT y⟩
    have hlow : ∀ (i : Nat) (z : Int), (g.slotSprites.map (bumpUp d))[i]? = some z →
        222 ≤ z := by
      intro i z hz
      obtain ⟨y, hy, rfl⟩ := hmap i z hz
      have := h.low i y hy
      omega
    have hup : BumpBounded sin15 d → ∀ (i : Nat) (z : Int),
        (g.slotSprites.map (bumpUp d))[i]? = some z → z ≤ 1554 + 2 * ((g.ticks + 1 : Nat) : Int) := by
      intro hb i z hz
      obtain ⟨y, hy, rfl⟩ := hmap i z hz
      have := hrise hb i y hy
      omega
    by_cases c : 12 < g.ticks + 1
    · rw [if_pos c]
      refine ⟨by simpa using h.reels, hlow, ?_, fun hc => (by cases hc), fun hc => (by cases hc),
        fun hc => (by cases hc), fun hc => (by cases hc), fun hc => (by cases hc),
        fun hc => (by cases hc)⟩
      intro hb i z hz
      have := hup hb i z hz
      omega
    · rw [if_neg c]
      refine ⟨by simpa using h.reels, hlow, ?_, fun hc => absurd hc (hne _ (by decide)),
        fun _ => ⟨by show g.ticks + 1 ≤ 12; omega, hup⟩,
        fun hc => absurd hc (hne _ (by decide)), fun hc => absurd hc (hne _ (by decide)),
        fun hc => absurd hc (hne _ (by decide)), fun hc => absurd hc (hne _ (by decide))⟩
      intro hb i z hz
      have := hup hb i z hz
      omega
  | phase3 =>
    have hne : ∀ p : Phase, p ≠ Phase.phase3 → g.state ≠ p :=
      fun p hp hc => hp (hc.symm.trans hs)
    refine ⟨_, animate_phase3 sin15 d g hs, ?_⟩
    have hall : ∀ (i : Nat) (z : Int),
        (g.slotSprites.map (fun y => wrap d (y - 40)))[i]? = some z →
        222 ≤ z ∧ (BumpBounded sin15 d → z ≤ 1580) := by
      intro i z hz
      obtain ⟨y, hy, rfl⟩ := getElem?_map_some hz
      have hb := wrap_step_bounds d hT hK y (h.low i y hy)
      exact ⟨hb.1, fun hbb => hb.2 (h.up hbb i y hy)⟩
    by_cases c : 90 < g.ticks + 1
    · rw [if_pos c]
      refine ⟨by simpa using h.reels, fun i z hz => (hall i z hz).1,
        fun hb i z hz => (hall i z hz).2 hb, fun hc => (by cases hc), fun hc => (by cases hc),
        fun _ => ⟨by simpa using h.reels, Nat.zero_le _⟩, ?_, ?_, ?_⟩
      · intro _ i z hi
        exact absurd hi (Nat.not_lt_zero i)
      · intro _ _ z hz
        show z % 222 + 40 * ((0 : Nat) : Int) ≤ 221
        omega
      · intro _ hc
        exact absurd hc (Nat.not_succ_le_zero 0)
    · rw [if_neg c]
      exact ⟨by simpa using h.reels, fun i z hz => (hall i z hz).1,
        fun hb i z hz => (hall i z hz).2 hb, fun hc => absurd hc (hne _ (by decide)),
        fun hc => absurd hc (hne _ (by decide)), fun hc => absurd hc (hne _ (by decide)),
        fun hc => absurd hc (hne _ (by decide)), fun hc => absurd hc (hne _ (by decide)),
        fun hc => absurd hc (hne _ (by decide))⟩
  | phase4 =>
    rw [animate_phase4 sin15 d g hs]
    obtain ⟨hslot, ht45⟩ := h.cur hs
    by_cases c : 45 < g.ticks + 1
    · rw [if_pos c]
      have hend := window_end_rest sin15 d g h hs c
      by_cases e : g.slot + 1 = g.slotSprites.length
      · rw [if_pos e]
        refine ⟨_, rfl, h.reels, h.low, h.up, ?_, fun hc => (by cases hc), fun hc => (by cases hc),
          fun hc => (by cases hc), fun hc => (by cases hc), fun hc => (by cases hc)⟩
        intro _ i y hy
        have hy' : g.slotSprites[i]? = some y := hy
        rcases Nat.lt_trichotomy i g.slot with hi | hi | hi
        · exact h.stopped hs i y hi hy'
        · rw [hi] at hy'
          exact hend y hy'
        · rw [List.getElem?_eq_none (by omega)] at hy'
          cases hy'
      · rw [if_neg e]
        apply body_inv sin15 d hT hK
          ⟨g.state, 0, g.slot + 1, 0, g.nearestY, g.slotSprites⟩ _ hs (Nat.zero_le _)
        have hne : ∀ p : Phase, p ≠ Phase.phase4 → g.state ≠ p :=
          fun p hp hc => hp (hc.symm.trans hs)
        refine ⟨h.reels, h.low, h.up, fun hc => absurd hc (hne _ (by decide)),
          fun hc => absurd hc (hne _ (by decide)),
          fun _ => ⟨show g.slot + 1 < g.slotSprites.length by omega, Nat.zero_le _⟩, ?_, ?_, ?_⟩
        · intro _ i y hi hy
          have hi' : i < g.slot + 1 := hi
          have hy' : g.slotSprites[i]? = some y := hy
          rcases Nat.lt_or_ge i g.slot with hlt | hge
          · exact h.stopped hs i y hlt hy'
          · have hi2 : i = g.slot := by omega
            rw [hi2] at hy'
            exact hend y hy'
        · intro _ _ y _
          show y % 222 + 40 * ((0 - 1 : Nat) : Int) ≤ 221
          omega
        · intro _ hc
          exact absurd hc (Nat.not_succ_le_zero 0)
    · rw [if_neg c]
      exact body_inv sin15 d hT hK
        ⟨g.state, g.ticks + 1, g.slot, g.slotTicks, g.nearestY, g.slotSprites⟩ h hs
        (show g.ticks + 1 ≤ 45 by omega)

end SlotGame

namespace SlotGame

/-! ## The stop bump for an accurate sine -/

theorem bump_of_close (sin15 : Nat → ℚ) (d : Desc) (hT : d.tileSize = 222) (t : Nat)
    (c : ℚ) (b : Int) (ht : t ≤ 15) (hs : |sin15 t - c| ≤ 1 / 1000000)
    (hlo : (b : ℚ) - 1 / 2 ≤ (1 - (t : ℚ) / 15) * (222 / 7 * (|c| - 1 / 1000000)))
    (hhi : (1 - (t : ℚ) / 15) * (222 / 7 * (|c| + 1 / 1000000)) < (b : ℚ) + 1 / 2) :
    bump sin15 d t = b := by
  have hk : (0 : ℚ) ≤ 1 - (t : ℚ) / 15 := by
    have : (t : ℚ) ≤ 15 := by exact_mod_cast ht
    linarith
  have h1 : |sin15 t| - |c| ≤ 1 / 1000000 :=
    le_trans (abs_sub_abs_le_abs_sub _ _) hs
  have h2 : |c| - |sin15 t| ≤ 1 / 1000000 :=
    le_trans (abs_sub_abs_le_abs_sub _ _) (by rw [abs_sub_comm]; exact hs)
  have habs : |((222 : Int) : ℚ) / 7 * sin15 t| = 222 / 7 * |sin15 t| := by
    rw [abs_mul, abs_of_pos (by norm_num : (0 : ℚ) < ((222 : Int) : ℚ) / 7)]
    norm_num
  have hA : (1 - (t : ℚ) / 15) * (222 / 7 * (|c| - 1 / 1000000))
      ≤ (1 - (t : ℚ) / 15) * (222 / 7 * |sin15 t|) :=
    mul_le_mul_of_nonneg_left (by linarith) hk
  have hB : (1 - (t : ℚ) / 15) * (222 / 7 * |sin15 t|)
      ≤ (1 - (t : ℚ) / 15) * (222 / 7 * (|c| + 1 / 1000000)) :=
    mul_le_mul_of_nonneg_left (by linarith) hk
  unfold bump jsRound
  rw [hT, habs, Int.floor_eq_iff]
  constructor <;> linarith

theorem bump_eq_table (sin15 : Nat → ℚ) (d : Desc) (hT : d.tileSize = 222)
    (hs : SinAccurate sin15) (t : Nat) (h1 : 1 ≤ t) (h15 : t ≤ 15) :
    bump sin15 d t = bumpTable t := by
  have hc := hs t h15
  interval_cases t <;>
    exact bump_of_close sin15 d hT _ _ _ (by norm_num) hc
      (by norm_num [sinTable, bumpTable, abs_of_pos, abs_of_neg])
      (by norm_num [sinTable, bumpTable, abs_of_pos, abs_of_neg])

theorem bumpBounded_of_accurate (sin15 : Nat → ℚ) (d : Desc) (hT : d.tileSize = 222)
    (hs : SinAccurate sin15) : BumpBounded sin15 d := by
  intro t h1 h15
  rw [bump_eq_table sin15 d hT hs t h1 h15]
  interval_cases t <;> decide

theorem sinAccurate_sinTable : SinAccurate sinTable := by
  intro t _
  rw [sub_self, abs_zero]
  norm_num

theorem run_inv (sin15 : Nat → ℚ) (d : Desc) (hT : d.tileSize = 222)
    (hK : d.sprites.length = 6) (g0 : SlotGame) (h0 : ReelInv sin15 d g0) (n : Nat) :
    ∃ g, run sin15 d n g0 = some g ∧ ReelInv sin15 d g := by
  induction n with
  | zero => exact ⟨g0, rfl, h0⟩
  | succ n ih =>
    obtain ⟨g, hg, hinv⟩ := ih
    obtain ⟨g', hg', hinv'⟩ := inv_step sin15 d hT hK g hinv
    exact ⟨g', by rw [run, hg]; exact hg', hinv'⟩

theorem frames_inv (sin15 : Nat → ℚ) (d : Desc) (hT : d.tileSize = 222)
    (hK : d.sprites.length = 6) (hN : 0 < d.slotCount) (n : Nat) :
    ∃ g, frames sin15 d n = some g ∧ ReelInv sin15 d g :=
  run_inv sin15 d hT hK (setup d) (inv_setup sin15 d hT hK hN) n

end SlotGame

namespace SlotGame

/-! ## Reachable states -/

theorem frames_thirty_one :
    frames sinTable FOURKINGS 31
      = some ⟨Phase.phase2, 0, 0, 0, 0, [1554, 1554, 1554, 1554, 1554]⟩ := by
  decide

theorem frames_thirty_two :
    frames sinTable FOURKINGS 32
      = some ⟨Phase.phase2, 1, 0, 0, 0, [1556, 1556, 1556, 1556, 1556]⟩ := by
  have h : frames sinTable FOURKINGS 32
      = (frames sinTable FOURKINGS 31).bind (animate sinTable FOURKINGS) := rfl
  rw [h, frames_thirty_one, Option.some_bind, animate_phase2 _ _ _ rfl]
  simp [bumpUp_shipped FOURKINGS rfl]

/-- C1 as stated fails: 32 frames after `setup` the shipped machine is in Initial Bump and
every reel's offset is 1556, above `startY = 1554`. -/
theorem offset_range_counterexample :
    frames sinTable FOURKINGS 32
      = some ⟨Phase.phase2, 1, 0, 0, 0, [1556, 1556, 1556, 1556, 1556]⟩ ∧
    FOURKINGS.startY = 1554 ∧
    ¬ ∀ (n : Nat) (g : SlotGame), frames sinTable FOURKINGS n = some g →
        ∀ y ∈ g.slotSprites, FOURKINGS.endY ≤ y ∧ y ≤ FOURKINGS.startY := by
  refine ⟨frames_thirty_two, by decide, ?_⟩
  intro hall
  have h := (hall 32 _ frames_thirty_two 1556 (by simp)).2
  exact absurd h (by decide)

/-- C1, amended: for the shipped tile geometry (tile size 222, six sprites), at least one
reel and a sine accurate to six decimals, every number of frames after `setup` leads to a
state, and in it every reel's offset lies in `[endY, startY + 26]`, that is `[222, 1580]`. -/
theorem offset_range (sin15 : Nat → ℚ) (d : Desc) (hT : d.tileSize = 222)
    (hK : d.sprites.length = 6) (hN : 0 < d.slotCount) (hs : SinAccurate sin15) (n : Nat) :
    ∃ g, frames sin15 d n = some g ∧
      ∀ y ∈ g.slotSprites, d.endY ≤ y ∧ y ≤ d.startY + 26 := by
  obtain ⟨g, hg, hinv⟩ := frames_inv sin15 d hT hK hN n
  refine ⟨g, hg, ?_⟩
  intro y hy
  obtain ⟨i, hi⟩ := List.mem_iff_getElem?.mp hy
  have hst : d.startY = 1554 := by
    simp [Desc.startY, Desc.itemCount, Desc.spriteCount, hT, hK]
  have he : d.endY = 222 := hT
  have h1 := hinv.low i y hi
  have h2 := hinv.up (bumpBounded_of_accurate sin15 d hT hs) i y hi
  rw [hst, he]
  constructor <;> omega

/-- C1, amended, on the shipped machine 44 frames after `setup`. -/
theorem offset_range_witness :
    ∃ g, frames sinTable FOURKINGS 44 = some g ∧
      ∀ y ∈ g.slotSprites, FOURKINGS.endY ≤ y ∧ y ≤ FOURKINGS.startY + 26 :=
  offset_range sinTable FOURKINGS rfl rfl (by decide) sinAccurate_sinTable 44

/-- C2: for the shipped tile geometry and at least one reel, every number of frames after
`setup` leads to a state; while it is in Staggered Stop every reel with index below the
stop index has an offset that is a multiple of the tile size; the state right after a
frame that returns from it to Initial Delay, and every state in Initial Delay, has all
offsets multiples of the tile size. -/
theorem stop_on_boundary (sin15 : Nat → ℚ) (d : Desc) (hT : d.tileSize = 222)
    (hK : d.sprites.length = 6) (hN : 0 < d.slotCount) (n : Nat) :
    ∃ g, frames sin15 d n = some g ∧
      (g.state = Phase.phase4 →
        ∀ (i : Nat) (y : Int), i < g.slot → g.slotSprites[i]? = some y → d.tileSize ∣ y) ∧
      (g.state = Phase.phase4 →
        ∀ g', animate sin15 d g = some g' → g'.state = Phase.phase1 →
          ∀ y ∈ g'.slotSprites, d.tileSize ∣ y) ∧
      (g.state = Phase.phase1 → ∀ y ∈ g.slotSprites, d.tileSize ∣ y) := by
  obtain ⟨g, hg, hinv⟩ := frames_inv sin15 d hT hK hN n
  refine ⟨g, hg, ?_, ?_, ?_⟩
  · intro h4 i y hi hy
    rw [hT]
    exact Int.dvd_of_emod_eq_zero (hinv.stopped h4 i y hi hy)
  · intro _ g' hg' h1 y hy
    obtain ⟨g'', hg'', hinv'⟩ := inv_step sin15 d hT hK g hinv
    rw [hg'] at hg''
    cases hg''
    obtain ⟨i, hi⟩ := List.mem_iff_getElem?.mp hy
    rw [hT]
    exact Int.dvd_of_emod_eq_zero (hinv'.rest h1 i y hi)
  · intro h1 y hy
    obtain ⟨i, hi⟩ := List.mem_iff_getElem?.mp hy
    rw [hT]
    exact Int.dvd_of_emod_eq_zero (hinv.rest h1 i y hi)

/-- C2 on the shipped machine 200 frames after `setup`, in the stop window of reel 1. -/
theorem stop_on_boundary_witness :
    ∃ g, frames sinTable FOURKINGS 200 = some g ∧
      (g.state = Phase.phase4 →
        ∀ (i : Nat) (y : Int), i < g.slot → g.slotSprites[i]? = some y →
          FOURKINGS.tileSize ∣ y) ∧
      (g.state = Phase.phase4 →
        ∀ g', animate sinTable FOURKINGS g = some g' → g'.state = Phase.phase1 →
          ∀ y ∈ g'.slotSprites, FOURKINGS.tileSize ∣ y) ∧
      (g.state = Phase.phase1 → ∀ y ∈ g.slotSprites, FOURKINGS.tileSize ∣ y) :=
  stop_on_boundary sinTable FOURKINGS rfl rfl (by decide) 200

end SlotGame

/-! ## The shuffle and the tiles of a strip -/

theorem isDouble_zero : IsDouble 0 :=
  ⟨0, 0, by norm_num, by norm_num, by norm_num, by norm_num⟩

theorem exists_pow_bracket (m : Nat) (h1 : 1 ≤ m) (hm : m ≤ 2 ^ 53) :
    ∃ c, c ≤ 53 ∧ m ≤ 2 ^ c ∧ 2 ^ c < 2 * m := by
  refine ⟨Nat.clog 2 m, ?_, Nat.le_pow_clog (by decide) m, ?_⟩
  · exact (Nat.le_pow_iff_clog_le (by decide)).mp hm
  · by_cases h2 : 2 ≤ m
    · have hlt := Nat.pow_pred_clog_lt_self (b := 2) (by decide) (x := m) (by omega)
      have hpos := Nat.clog_pos (b := 2) (by decide) h2
      have : 2 ^ Nat.clog 2 m = 2 * 2 ^ (Nat.clog 2 m).pred := by
        conv_lhs => rw [← Nat.succ_pred_eq_of_pos hpos]
        rw [Nat.pow_succ, Nat.mul_comm]
      omega
    · have : m = 1 := by omega
      subst this
      simp

/-- A binary64 number below 1 is at most `1 - 2 ^ (-53)`. -/
theorem double_lt_one (r : ℚ) (hd : IsDouble r) (h1 : r < 1) : r ≤ 1 - 1 / 2 ^ 53 := by
  obtain ⟨a, e, ha, he0, he1, rfl⟩ := hd
  have ha' : a < 2 ^ 53 := lt_of_le_of_lt (le_abs_self a) ha
  by_cases he : -53 ≤ e
  · obtain ⟨k, hk⟩ : ∃ k : Nat, e = (k : Int) - 53 := ⟨(e + 53).toNat, by omega⟩
    subst hk
    have hpow : (2 : ℚ) ^ ((k : Int) - 53) = (2 : ℚ) ^ k / 2 ^ 53 := by
      rw [zpow_sub₀ (by norm_num : (2 : ℚ) ≠ 0), zpow_natCast]
      norm_num
    rw [hpow] at h1 ⊢
    have hN : ((a * 2 ^ k : Int) : ℚ) < ((2 ^ 53 : Int) : ℚ) := by
      push_cast
      have : (a : ℚ) * (2 ^ k / 2 ^ 53) * 2 ^ 53 < 1 * 2 ^ 53 :=
        mul_lt_mul_of_pos_right h1 (by positivity)
      have e1 : (a : ℚ) * (2 ^ k / 2 ^ 53) * 2 ^ 53 = (a : ℚ) * 2 ^ k := by
        field_simp
      linarith
    have hN' : a * 2 ^ k < 2 ^ 53 := by exact_mod_cast hN
    have hN'' : a * 2 ^ k ≤ 2 ^ 53 - 1 := by omega
    have hq : ((a * 2 ^ k : Int) : ℚ) ≤ ((2 ^ 53 - 1 : Int) : ℚ) := by exact_mod_cast hN''
    push_cast at hq
    have e2 : (a : ℚ) * (2 ^ k / 2 ^ 53) = (a : ℚ) * 2 ^ k / 2 ^ 53 := by ring
    rw [e2, div_le_iff₀ (by positivity)]
    have e3 : ((1 : ℚ) - 1 / 2 ^ 53) * 2 ^ 53 = 2 ^ 53 - 1 := by norm_num
    have e4 : (2 : ℚ) ^ 53 - 1 = 9007199254740991 := by norm_num
    rw [e3, e4]
    exact hq
  · have he' : e ≤ -54 := by omega
    have hp : (2 : ℚ) ^ e ≤ (2 : ℚ) ^ (-54 : Int) := zpow_le_zpow_right₀ (by norm_num) he'
    have hp0 : (0 : ℚ) < (2 : ℚ) ^ e := by positivity
    have haq : (a : ℚ) < 2 ^ 53 := by exact_mod_cast ha'
    have h54 : (2 : ℚ) ^ (-54 : Int) = 1 / 2 ^ 54 := by
      rw [zpow_neg]
      norm_num
    by_cases ha0 : 0 ≤ a
    · have ha0q : (0 : ℚ) ≤ (a : ℚ) := by exact_mod_cast ha0
      have : (a : ℚ) * (2 : ℚ) ^ e ≤ 2 ^ 53 * (1 / 2 ^ 54) := by
        rw [← h54]
        exact mul_le_mul (le_of_lt haq) hp (le_of_lt hp0) (by positivity)
      norm_num at this ⊢
      linarith
    · have ha0q : (a : ℚ) ≤ 0 := by
        have : a ≤ 0 := by omega
        exact_mod_cast this
      have : (a : ℚ) * (2 : ℚ) ^ e ≤ 0 := mul_nonpos_of_nonpos_of_nonneg ha0q (le_of_lt hp0)
      norm_num
      linarith

/-- The binary64 number just below the integer `m`, for `m ≤ 2 ^ c ≤ 2 ^ 53`. -/
theorem isDouble_below (m c : Nat) (h1 : 1 ≤ m) (hc : c ≤ 53) (hm : m ≤ 2 ^ c) :
    IsDouble ((m : ℚ) - 2 ^ c / 2 ^ 53) := by
  refine ⟨(m : Int) * 2 ^ (53 - c) - 1, (c : Int) - 53, ?_, by omega, by omega, ?_⟩
  · have hpos : (1 : Int) ≤ (m : Int) * 2 ^ (53 - c) := by
      have : (1 : Int) ≤ (m : Int) := by exact_mod_cast h1
      have h2 : (1 : Int) ≤ 2 ^ (53 - c) := one_le_pow₀ (by norm_num)
      calc (1 : Int) = 1 * 1 := by norm_num
        _ ≤ (m : Int) * 2 ^ (53 - c) := mul_le_mul this h2 (by norm_num) (by omega)
    have hup : (m : Int) * 2 ^ (53 - c) ≤ 2 ^ 53 := by
      have : (m : Int) ≤ 2 ^ c := by exact_mod_cast hm
      calc (m : Int) * 2 ^ (53 - c) ≤ 2 ^ c * 2 ^ (53 - c) :=
            mul_le_mul_of_nonneg_right this (by positivity)
        _ = 2 ^ 53 := by rw [← pow_add]; congr 1; omega
    rw [abs_of_nonneg (by omega)]
    omega
  · have hpow : (2 : ℚ) ^ ((c : Int) - 53) = (2 : ℚ) ^ c / 2 ^ 53 := by
      rw [zpow_sub₀ (by norm_num : (2 : ℚ) ≠ 0), zpow_natCast]
      norm_num
    have hsplit : (2 : ℚ) ^ (53 - c) * 2 ^ c = 2 ^ 53 := by
      rw [← pow_add]; congr 1; omega
    rw [hpow]
    push_cast
    have e1 : ((m : ℚ) * 2 ^ (53 - c) - 1) * (2 ^ c / 2 ^ 53)
        = (m : ℚ) * (2 ^ (53 - c) * 2 ^ c) / 2 ^ 53 - 2 ^ c / 2 ^ 53 := by ring
    rw [e1, hsplit, mul_div_assoc, div_self (by positivity), mul_one]

/-- The rounded product of a draw and a positive integer `m ≤ 2 ^ 53` stays in `[0, m)`:
any value nearest to the exact product among the binary64 numbers does. -/
theorem rounded_product_range (v r : ℚ) (m : Nat) (h1 : 1 ≤ m) (hm : m ≤ 2 ^ 53)
    (hr0 : 0 ≤ r) (hr1 : r ≤ 1 - 1 / 2 ^ 53)
    (hv : ∀ q, IsDouble q → |r * m - v| ≤ |r * m - q|) : 0 ≤ v ∧ v < m := by
  have hm0 : (0 : ℚ) < (m : ℚ) := by exact_mod_cast h1
  have hx0 : (0 : ℚ) ≤ r * m := mul_nonneg hr0 (le_of_lt hm0)
  have hx1 : r * m ≤ (m : ℚ) - m / 2 ^ 53 := by
    have := mul_le_mul_of_nonneg_right hr1 (le_of_lt hm0)
    calc r * m ≤ (1 - 1 / 2 ^ 53) * m := this
      _ = (m : ℚ) - m / 2 ^ 53 := by ring
  constructor
  · by_contra hc
    have hneg : v < 0 := lt_of_not_ge hc
    have h := hv 0 isDouble_zero
    rw [sub_zero, abs_of_nonneg hx0, abs_of_pos (by linarith)] at h
    linarith
  · by_contra hc
    have hge : (m : ℚ) ≤ v := le_of_not_lt hc
    obtain ⟨c, hc53, hmc, hcm⟩ := exists_pow_bracket m h1 hm
    have h := hv _ (isDouble_below m c h1 hc53 hmc)
    have hcq : (2 : ℚ) ^ c < 2 * m := by exact_mod_cast hcm
    have hu : (0 : ℚ) < 2 ^ c / 2 ^ 53 := by positivity
    have hlt : |r * m - ((m : ℚ) - 2 ^ c / 2 ^ 53)| < (m : ℚ) - r * m := by
      rw [abs_lt]
      have hhalf : (2 : ℚ) ^ c / 2 ^ 53 < 2 * (m / 2 ^ 53) := by
        rw [← mul_div_assoc]
        exact div_lt_div_of_pos_right hcq (by positivity)
      constructor <;> linarith
    have hfar : (m : ℚ) - r * m ≤ |r * m - v| := by
      rw [abs_sub_comm, abs_of_nonneg (by linarith)]
      linarith
    linarith

theorem shuffleIndex_range (fl : ℚ → ℚ) (r : ℚ) (n i : Nat) (hd : IsDouble r) (h0 : 0 ≤ r)
    (h1 : r < 1) (hn : n ≤ 2 ^ 53) (hi : i + 1 < n)
    (hv : ∀ q, IsDouble q →
      |r * ((n : ℚ) - (i : ℚ)) - fl (r * ((n : ℚ) - (i : ℚ)))|
        ≤ |r * ((n : ℚ) - (i : ℚ)) - q|) :
    (i : Int) ≤ shuffleIndex fl r n i ∧ shuffleIndex fl r n i ≤ (n : Int) - 1 := by
  have hcast : (n : ℚ) - (i : ℚ) = ((n - i : Nat) : ℚ) := by
    rw [Nat.cast_sub (by omega)]
  rw [hcast] at hv
  obtain ⟨hlo, hhi⟩ := rounded_product_range (fl (r * ((n - i : Nat) : ℚ))) r (n - i)
    (by omega) (by omega) h0 (double_lt_one r hd h1) hv
  have hfl0 : (0 : Int) ≤ ⌊fl (r * ((n - i : Nat) : ℚ))⌋ := Int.floor_nonneg.mpr hlo
  have hfl1 : ⌊fl (r * ((n - i : Nat) : ℚ))⌋ < ((n - i : Nat) : Int) := by
    rw [Int.floor_lt]
    exact_mod_cast hhi
  unfold shuffleIndex
  rw [hcast]
  constructor <;> omega

theorem shuffleSwap_perm {α : Type} (a : List α) (i : Nat) (j : Int)
    (hi : i < a.length) (hj0 : 0 ≤ j) (hj : j < a.length) :
    ∃ out, shuffleSwap a i j = some out ∧ out.Perm a ∧ out.length = a.length := by
  have hjn : j.toNat < a.length := by omega
  unfold shuffleSwap
  rw [if_pos hj0, List.getElem?_eq_getElem hi, List.getElem?_eq_getElem hjn]
  refine ⟨_, rfl, ?_, by simp⟩
  classical
  rw [List.perm_iff_count]
  intro b
  have h1 : j.toNat < (a.set i a[j.toNat]).length := by simpa using hjn
  rw [List.count_set _ _ _ _ h1, List.count_set _ _ _ _ hi]
  have hget : (a.set i a[j.toNat])[j.toNat] = a[j.toNat] := by
    rw [List.getElem_set]
    split
    · rfl
    · rfl
  rw [hget]
  have hpos : (if a[i] == b then 1 else 0) ≤ a.count b := by
    split
    · rename_i hb
      have : a[i] = b := by simpa using hb
      rw [← this]
      exact List.count_pos_iff.mpr (List.getElem_mem hi)
    · exact Nat.zero_le _
  omega

theorem shuffle_loop_perm {α : Type} (fl : ℚ → ℚ) (rand : Nat → ℚ) (n : Nat)
    (hn : n ≤ 2 ^ 53) (hr : Binary64Draws fl rand n) (is : List Nat)
    (his : ∀ i ∈ is, i + 1 < n) (a : List α) (ha : a.length = n) :
    ∃ out, is.foldlM (fun a i => shuffleSwap a i (shuffleIndex fl (rand i) n i)) a
        = some out ∧ out.Perm a ∧ out.length = n := by
  induction is generalizing a with
  | nil => exact ⟨a, rfl, List.Perm.refl a, ha⟩
  | cons i rest ih =>
    have hi := his i (List.mem_cons_self i rest)
    obtain ⟨hlo, hhi⟩ := shuffleIndex_range fl (rand i) n i (hr.1 i).1 (hr.1 i).2.1
      (hr.1 i).2.2 hn hi (hr.2 i hi)
    obtain ⟨b, hb, hperm, hlen⟩ :=
      shuffleSwap_perm a i (shuffleIndex fl (rand i) n i) (by omega) (by omega) (by omega)
    obtain ⟨out, hout, hperm', hlen'⟩ :=
      ih (fun k hk => his k (List.mem_cons_of_mem i hk)) b (by omega)
    refine ⟨out, ?_, hperm'.trans hperm, hlen'⟩
    rw [List.foldlM_cons, hb]
    exact hout

theorem isDouble_tieDraw : IsDouble tieDraw :=
  ⟨3752999689475413, -52, by norm_num, by norm_num, by norm_num, by
    rw [tieDraw, zpow_neg]
    norm_num⟩

theorem isDouble_half : IsDouble (1 / 2) :=
  ⟨1, -1, by norm_num, by norm_num, by norm_num, by
    rw [zpow_neg]
    norm_num⟩

/-- No binary64 number is nearer to `5 - 2 ^ (-51)` than 5 is. -/
theorem tie_nearest (q : ℚ) (hq : IsDouble q) : |tieDraw * 6 - 5| ≤ |tieDraw * 6 - q| := by
  obtain ⟨a, e, ha, -, -, rfl⟩ := hq
  have hx : tieDraw * 6 = 11258999068426239 / 2 ^ 51 := by
    rw [tieDraw]
    norm_num
  have hleft : |tieDraw * 6 - 5| = 1 / 2 ^ 51 := by
    rw [hx, abs_sub_comm, abs_of_nonneg (by norm_num)]
    norm_num
  rw [hleft]
  by_cases he : -50 ≤ e
  · obtain ⟨k, hk⟩ : ∃ k : Nat, e = (k : Int) - 50 := ⟨(e + 50).toNat, by omega⟩
    subst hk
    have hpow : (2 : ℚ) ^ ((k : Int) - 50) = (2 : ℚ) ^ k / 2 ^ 50 := by
      rw [zpow_sub₀ (by norm_num : (2 : ℚ) ≠ 0), zpow_natCast]
      norm_num
    have hdiff : tieDraw * 6 - (a : ℚ) * (2 : ℚ) ^ ((k : Int) - 50)
        = ((11258999068426239 - 2 * (a * 2 ^ k) : Int) : ℚ) / 2 ^ 51 := by
      rw [hx, hpow]
      push_cast
      field_simp
      ring
    have hodd : (11258999068426239 - 2 * (a * 2 ^ k) : Int) ≠ 0 := by omega
    have hone : (1 : ℚ) ≤ |((11258999068426239 - 2 * (a * 2 ^ k) : Int) : ℚ)| := by
      have : (1 : Int) ≤ |(11258999068426239 - 2 * (a * 2 ^ k) : Int)| :=
        Int.one_le_abs hodd
      exact_mod_cast this
    rw [hdiff, abs_div, abs_of_pos (by positivity : (0 : ℚ) < 2 ^ 51)]
    exact div_le_div_of_nonneg_right hone (by positivity)
  · have he' : e ≤ -51 := by omega
    have hp : (2 : ℚ) ^ e ≤ (2 : ℚ) ^ (-51 : Int) := zpow_le_zpow_right₀ (by norm_num) he'
    have hp0 : (0 : ℚ) < (2 : ℚ) ^ e := by positivity
    have h51 : (2 : ℚ) ^ (-51 : Int) = 1 / 2 ^ 51 := by
      rw [zpow_neg]
      norm_num
    have haq : |(a : ℚ)| < 2 ^ 53 := by exact_mod_cast ha
    have hsmall : (a : ℚ) * (2 : ℚ) ^ e ≤ 4 := by
      have h1 : (a : ℚ) * (2 : ℚ) ^ e ≤ |(a : ℚ)| * (2 : ℚ) ^ e :=
        mul_le_mul_of_nonneg_right (le_abs_self _) (le_of_lt hp0)
      have h2 : |(a : ℚ)| * (2 : ℚ) ^ e ≤ 2 ^ 53 * (1 / 2 ^ 51) := by
        rw [← h51]
        exact mul_le_mul (le_of_lt haq) hp (le_of_lt hp0) (by positivity)
      have h3 : (2 : ℚ) ^ 53 * (1 / 2 ^ 51) = 4 := by norm_num
      linarith
    have hbig : (1 : ℚ) / 2 ^ 51 ≤ tieDraw * 6 - (a : ℚ) * (2 : ℚ) ^ e := by
      rw [hx]
      have : (1 : ℚ) / 2 ^ 51 + 4 ≤ 11258999068426239 / 2 ^ 51 := by norm_num
      linarith
    exact le_trans hbig (le_abs_self _)

theorem binary64Draws_tie : Binary64Draws tieRound tieRand 6 := by
  constructor
  · intro k
    unfold tieRand
    split
    · exact ⟨isDouble_tieDraw, by rw [tieDraw]; norm_num, by rw [tieDraw]; norm_num⟩
    · exact ⟨isDouble_half, by norm_num, by norm_num⟩
  · intro i hi q hq
    by_cases h0 : i = 0
    · subst h0
      have hx : tieRand 0 * (((6 : Nat) : ℚ) - ((0 : Nat) : ℚ)) = tieDraw * 6 := by
        simp [tieRand]
      rw [hx]
      have hr : tieRound (tieDraw * 6) = 5 := by simp [tieRound]
      rw [hr]
      exact tie_nearest q hq
    · have hne : tieRand i * (((6 : Nat) : ℚ) - (i : ℚ)) ≠ tieDraw * 6 := by
        have hi' : i = 1 ∨ i = 2 ∨ i = 3 ∨ i = 4 := by omega
        rcases hi' with h | h | h | h <;> subst h <;> simp [tieRand, tieDraw] <;> norm_num
      have hr : tieRound (tieRand i * (((6 : Nat) : ℚ) - (i : ℚ)))
          = tieRand i * (((6 : Nat) : ℚ) - (i : ℚ)) := by
        unfold tieRound
        rw [if_neg hne]
      rw [hr, sub_self, abs_zero]
      exact abs_nonneg _

/-- C12: for an array of at most `2 ^ 53` elements (every JavaScript array is shorter than
`2 ^ 32`) and binary64 draws of `Math.random()` in `[0, 1)` whose products with `n - i`
are rounded to a nearest binary64 number, every index `j` chosen by `shuffle` in an
iteration `i < n - 1` satisfies `i ≤ j ≤ n - 1`, no access leaves the array, and the
returned array is a permutation of the input of the same length. -/
theorem shuffle_perm {α : Type} (fl : ℚ → ℚ) (rand : Nat → ℚ) (array : List α)
    (hn : array.length ≤ 2 ^ 53) (hr : Binary64Draws fl rand array.length) :
    (∀ i, i + 1 < array.length →
      (i : Int) ≤ shuffleIndex fl (rand i) array.length i ∧
      shuffleIndex fl (rand i) array.length i ≤ (array.length : Int) - 1) ∧
    ∃ out, shuffle fl rand array = some out ∧ out.Perm array ∧
      out.length = array.length := by
  refine ⟨fun i hi => shuffleIndex_range fl (rand i) array.length i (hr.1 i).1 (hr.1 i).2.1
    (hr.1 i).2.2 hn hi (hr.2 i hi), ?_⟩
  exact shuffle_loop_perm fl rand array.length hn hr _
    (fun i hi => by have := List.mem_range.mp hi; omega) array rfl

/-- With the draw `tieDraw` the program picks index 5 in iteration 0 of a shuffle of six
elements, where the exact product `5 - 2 ^ (-51)` has floor 4. -/
theorem shuffleIndex_tie :
    shuffleIndex tieRound (tieRand 0) 6 0 = 5 ∧ ⌊tieDraw * 6⌋ = 4 := by
  constructor
  · have hx : tieRand 0 * (((6 : Nat) : ℚ) - ((0 : Nat) : ℚ)) = tieDraw * 6 := by
      simp [tieRand]
    unfold shuffleIndex
    rw [hx]
    simp [tieRound]
  · rw [Int.floor_eq_iff, tieDraw]
    constructor <;> norm_num

/-- C12 on the six tile keys with a first draw whose product with 6 is rounded up to 5
(the exact product is below 5): the index chosen in iteration 0 is 5, within the array,
and the result is a permutation. -/
theorem shuffle_perm_witness :
    (shuffleIndex tieRound (tieRand 0) 6 0 = 5 ∧ ⌊tieDraw * 6⌋ = 4) ∧
    ((0 : Int) ≤ shuffleIndex tieRound (tieRand 0) 6 0 ∧
      shuffleIndex tieRound (tieRand 0) 6 0 ≤ 5) ∧
    ∃ out, shuffle tieRound tieRand [0, 1, 2, 3, 4, 5] = some out ∧
      out.Perm [0, 1, 2, 3, 4, 5] ∧ out.length = 6 :=
  have h := shuffle_perm tieRound tieRand [0, 1, 2, 3, 4, 5] (by norm_num) binary64Draws_tie
  ⟨shuffleIndex_tie, h.1 0 (by decide), h.2⟩

/-- C11: for a description with `K ≤ 2 ^ 53` sprites, the order `setup` gets from `shuffle`
on the tile keys `0 .. K - 1` is a permutation of them whatever the binary64 draws in
`[0, 1)` and the rounding of their products to a nearest binary64 number are, and
for every order `p` that is a permutation of the tile keys the strip built in `setup` has
exactly `K + 5` rows (11 for six sprites) and every tile key appears in it, already among
its first `K` rows. -/
theorem strip_contains_all_tiles (d : Desc) :
    (∀ (fl : ℚ → ℚ) (rand : Nat → ℚ), d.spriteCount ≤ 2 ^ 53 →
      Binary64Draws fl rand d.spriteCount →
      ∃ p, shuffle fl rand (List.range d.spriteCount) = some p ∧
        p.Perm (List.range d.spriteCount)) ∧
    ∀ p : List Nat, p.Perm (List.range d.spriteCount) →
      (reelStrip d p).length = d.spriteCount + 5 ∧
      (d.spriteCount = 6 → (reelStrip d p).length = 11) ∧
      ∀ k, k < d.spriteCount →
        some k ∈ reelStrip d p ∧
        ∃ i, i < d.spriteCount ∧ (reelStrip d p)[i]? = some (some k) := by
  constructor
  · intro fl rand hK hr
    have hlen : (List.range d.spriteCount).length = d.spriteCount := List.length_range _
    obtain ⟨out, hout, hperm, -⟩ := shuffle_loop_perm fl rand
      (List.range d.spriteCount).length (by rw [hlen]; exact hK) (by rw [hlen]; exact hr)
      (List.range ((List.range d.spriteCount).length - 1))
      (fun i hi => by have := List.mem_range.mp hi; omega) (List.range d.spriteCount) rfl
    exact ⟨out, hout, hperm⟩
  · intro p hp
    have hlen : (reelStrip d p).length = d.spriteCount + 5 := by
      simp [reelStrip, Desc.itemCount]
    refine ⟨hlen, fun h6 => by rw [hlen, h6], ?_⟩
    intro k hk
    have hmem : k ∈ p := hp.mem_iff.mpr (List.mem_range.mpr hk)
    obtain ⟨i, hi, hpi⟩ := List.mem_iff_getElem.mp hmem
    have hplen : p.length = d.spriteCount := by rw [hp.length_eq, List.length_range]
    have hiK : i < d.spriteCount := by omega
    have hrow : (reelStrip d p)[i]? = some (some k) := by
      rw [SlotGame.getElem?_reelStrip d p i (by omega), Nat.mod_eq_of_lt hiK,
        List.getElem?_eq_getElem hi, hpi]
    exact ⟨List.mem_iff_getElem?.mpr ⟨i, hrow⟩, i, hiK, hrow⟩

/-- C11 on the shipped description with the tile order 3 1 4 0 5 2. -/
theorem strip_contains_all_tiles_witness :
    (reelStrip FOURKINGS [3, 1, 4, 0, 5, 2]).length = 11 ∧
    ∀ k, k < 6 → some k ∈ reelStrip FOURKINGS [3, 1, 4, 0, 5, 2] :=
  have h := (strip_contains_all_tiles FOURKINGS).2 [3, 1, 4, 0, 5, 2] (by decide)
  ⟨h.2.1 rfl, fun k hk => (h.2.2 k hk).1⟩

namespace SlotGame

/-! ## Initial Bump, the first 136 frames, the order of the phases -/

theorem bumpUp_eq (d : Desc) (y : Int) :
    bumpUp d y = ⌊(y : ℚ) + (d.tileSize : ℚ) / 7 / 12⌋ ∧ bumpUp d y = y + d.tileSize / 84 := by
  have h1 : (d.tileSize : ℚ) * (1 / 7) / 12 = (d.tileSize : ℚ) / 7 / 12 := by ring
  have h2 : (d.tileSize : ℚ) / 7 / 12 = (d.tileSize : ℚ) / ((84 : Nat) : ℚ) := by
    push_cast
    ring
  unfold bumpUp
  rw [h1]
  refine ⟨rfl, ?_⟩
  rw [Int.floor_int_add, h2, Rat.floor_intCast_div_natCast]
  rfl

theorem run_bump (sin15 : Nat → ℚ) (d : Desc) (hT : d.tileSize = 222) (g : SlotGame)
    (hs : g.state = Phase.phase2) (ht : g.ticks = 0) (k : Nat) (hk : k ≤ 12) :
    run sin15 d k g = some ⟨Phase.phase2, k, g.slot, g.slotTicks, g.nearestY,
      g.slotSprites.map (fun y => y + 2 * (k : Int))⟩ := by
  induction k with
  | zero =>
    cases g with
    | mk st tk sl stk ny ss =>
      simp only at hs ht
      subst hs
      subst ht
      simp [run]
  | succ k ih =>
    rw [run, ih (by omega), Option.some_bind, animate_phase2 _ _ _ rfl]
    have hc : ¬ 12 < k + 1 := by omega
    simp only [hc, if_false, List.map_map]
    congr 2
    apply List.map_congr_left
    intro y _
    simp only [Function.comp, bumpUp_shipped d hT]
    push_cast
    ring

theorem run_bump_end (sin15 : Nat → ℚ) (d : Desc) (hT : d.tileSize = 222) (g : SlotGame)
    (hs : g.state = Phase.phase2) (ht : g.ticks = 0) :
    run sin15 d 13 g = some ⟨Phase.phase3, 0, g.slot, g.slotTicks, g.nearestY,
      g.slotSprites.map (fun y => y + 26)⟩ := by
  rw [run, run_bump sin15 d hT g hs ht 12 (le_refl _), Option.some_bind,
    animate_phase2 _ _ _ rfl]
  simp only [show (12 : Nat) < 12 + 1 by decide, if_true, List.map_map]
  congr 2
  apply List.map_congr_left
  intro y _
  simp only [Function.comp, bumpUp_shipped d hT]
  push_cast
  ring

/-- C13: a frame executed while the phase is Initial Bump returns and maps every reel's
offset `y` to `floor (y + tileSize / 7 / 12)`, which is `y + floor (tileSize / 84)` and
`y + 2` for the tile size 222; for that tile size the 13 frames that follow the entry into
Initial Bump (tick counter 0) stay in the phase for 12 frames, raising every reel by 2
each, and end in Full Spin with every reel raised by 26. -/
theorem initialBump_step (sin15 : Nat → ℚ) (d : Desc) (g : SlotGame)
    (h : g.state = Phase.phase2) :
    (∃ g', animate sin15 d g = some g' ∧ g'.slotSprites = g.slotSprites.map (bumpUp d)) ∧
    (∀ y : Int, bumpUp d y = ⌊(y : ℚ) + (d.tileSize : ℚ) / 7 / 12⌋ ∧
      bumpUp d y = y + d.tileSize / 84) ∧
    (d.tileSize = 222 → (∀ y : Int, bumpUp d y = y + 2) ∧
      (g.ticks = 0 →
        (∀ k, k ≤ 12 → ∃ gk, run sin15 d k g = some gk ∧ gk.state = Phase.phase2 ∧
          gk.slotSprites = g.slotSprites.map (fun y => y + 2 * (k : Int))) ∧
        ∃ g13, run sin15 d 13 g = some g13 ∧ g13.state = Phase.phase3 ∧ g13.ticks = 0 ∧
          g13.slotSprites = g.slotSprites.map (fun y => y + 26))) := by
  refine ⟨?_, bumpUp_eq d, fun hT => ⟨bumpUp_shipped d hT, fun ht => ⟨fun k hk => ?_, ?_⟩⟩⟩
  · rw [animate_phase2 sin15 d g h]
    exact ⟨_, rfl, by split <;> rfl⟩
  · exact ⟨_, run_bump sin15 d hT g h ht k hk, rfl, rfl⟩
  · exact ⟨_, run_bump_end sin15 d hT g h ht, rfl, rfl, rfl⟩

/-- C13 on the shipped machine entering Initial Bump with five reels at 1554: 13 frames
later it is in Full Spin with the reels at 1580. -/
theorem initialBump_step_witness :
    ∃ g13, run sinTable FOURKINGS 13 ⟨Phase.phase2, 0, 0, 0, 0, [1554, 1554, 1554, 1554, 1554]⟩
        = some g13 ∧ g13.state = Phase.phase3 ∧ g13.ticks = 0 ∧
      g13.slotSprites = ([1554, 1554, 1554, 1554, 1554] : List Int).map (fun y => y + 26) :=
  ((initialBump_step sinTable FOURKINGS
    ⟨Phase.phase2, 0, 0, 0, 0, [1554, 1554, 1554, 1554, 1554]⟩ rfl).2.2 rfl).2 rfl |>.2

/-- C14: with at least one reel, 136 frames after `setup` the machine is in Staggered Stop
with tick counter 1 and stop index 0, every earlier frame returned, and the states before
were in Initial Delay (after 0 to 30 frames), Initial Bump (31 to 43), Full Spin (44 to
134) and Staggered Stop (135). -/
theorem end_to_end (sin15 : Nat → ℚ) (d : Desc) (hN : 0 < d.slotCount) :
    (∃ g, frames sin15 d 136 = some g ∧ g.state = Phase.phase4 ∧ g.ticks = 1 ∧ g.slot = 0) ∧
    ∀ n, n < 136 → ∃ g, frames sin15 d n = some g ∧
      g.state = (if n ≤ 30 then Phase.phase1 else if n ≤ 43 then Phase.phase2
        else if n ≤ 134 then Phase.phase3 else Phase.phase4) := by
  have hlen : (setup d).slotSprites.length = d.slotCount := by simp [setup]
  have hsch : ∀ n, n ≤ 136 → ∃ g, frames sin15 d n = some g ∧ OnSchedule d.slotCount n g := by
    intro n hn
    have := run_schedule sin15 d (setup d) rfl rfl (by rw [hlen]; exact hN) n
      (by rw [hlen]; omega)
    rw [hlen] at this
    exact this
  constructor
  · obtain ⟨g, hg, hs⟩ := hsch 136 (le_refl _)
    obtain ⟨h4, hslot, htick⟩ := hs.stop (by omega) (by omega)
    exact ⟨g, hg, h4, htick, hslot⟩
  · intro n hn
    obtain ⟨g, hg, hs⟩ := hsch n (by omega)
    refine ⟨g, hg, ?_⟩
    by_cases c1 : n ≤ 30
    · rw [if_pos c1]; exact (hs.delay c1).1
    · rw [if_neg c1]
      by_cases c2 : n ≤ 43
      · rw [if_pos c2]; exact (hs.rise (by omega) c2).1
      · rw [if_neg c2]
        by_cases c3 : n ≤ 134
        · rw [if_pos c3]; exact (hs.spin (by omega) c3).1
        · rw [if_neg c3]; exact (hs.stop (by omega) (by omega)).1

/-- C14 on the shipped machine. -/
theorem end_to_end_witness :
    ∃ g, frames sinTable FOURKINGS 136 = some g ∧ g.state = Phase.phase4 ∧ g.ticks = 1 ∧
      g.slot = 0 :=
  (end_to_end sinTable FOURKINGS (by decide)).1

/-- C15: a frame returns in Initial Delay, Initial Bump and Full Spin, and in Staggered Stop
when the stop index is a reel index; whenever it returns, the phase after it is the phase
before it or its successor in the cyclic order, and a frame that enters Staggered Stop
starts from Full Spin and sets the stop index and the stop counter to 0. -/
theorem phase_order (sin15 : Nat → ℚ) (d : Desc) (g : SlotGame) :
    (g.state ≠ Phase.phase4 ∨ g.slot < g.slotSprites.length →
      ∃ g', animate sin15 d g = some g') ∧
    ∀ g', animate sin15 d g = some g' →
      (g'.state = g.state ∨ g'.state = g.state.next) ∧
      (g.state ≠ Phase.phase4 → g'.state = Phase.phase4 →
        g.state = Phase.phase3 ∧ g'.slot = 0 ∧ g'.slotTicks = 0) := by
  cases hs : g.state with
  | phase1 =>
    rw [animate_phase1 sin15 d g hs]
    refine ⟨fun _ => ⟨_, rfl⟩, ?_⟩
    intro g' hg'
    split at hg' <;> cases hg'
    · exact ⟨Or.inr rfl, fun _ hc => (by cases hc)⟩
    · exact ⟨Or.inl hs, fun _ hc => absurd (hs.symm.trans hc) (by decide)⟩
  | phase2 =>
    rw [animate_phase2 sin15 d g hs]
    refine ⟨fun _ => ⟨_, rfl⟩, ?_⟩
    intro g' hg'
    split at hg' <;> cases hg'
    · exact ⟨Or.inr rfl, fun _ hc => (by cases hc)⟩
    · exact ⟨Or.inl hs, fun _ hc => absurd (hs.symm.trans hc) (by decide)⟩
  | phase3 =>
    rw [animate_phase3 sin15 d g hs]
    refine ⟨fun _ => ⟨_, rfl⟩, ?_⟩
    intro g' hg'
    split at hg' <;> cases hg'
    · exact ⟨Or.inr rfl, fun _ _ => ⟨rfl, rfl, rfl⟩⟩
    · exact ⟨Or.inl hs, fun _ hc => absurd (hs.symm.trans hc) (by decide)⟩
  | phase4 =>
    rw [animate_phase4 sin15 d g hs]
    constructor
    · intro hor
      have hslot : g.slot < g.slotSprites.length := by
        rcases hor with h | h
        · exact absurd rfl h
        · exact h
      by_cases c : 45 < g.ticks + 1
      · rw [if_pos c]
        by_cases e : g.slot + 1 = g.slotSprites.length
        · rw [if_pos e]; exact ⟨_, rfl⟩
        · rw [if_neg e]
          exact phase4Body_isSome sin15 d _ (show g.slot + 1 < g.slotSprites.length by omega)
      · rw [if_neg c]
        exact phase4Body_isSome sin15 d _ hslot
    · intro g' hg'
      refine ⟨?_, fun hne => absurd rfl hne⟩
      by_cases c : 45 < g.ticks + 1
      · rw [if_pos c] at hg'
        by_cases e : g.slot + 1 = g.slotSprites.length
        · rw [if_pos e] at hg'
          cases hg'
          exact Or.inr rfl
        · rw [if_neg e] at hg'
          exact Or.inl ((phase4Body_frame sin15 d _ g' hg').1.trans hs)
      · rw [if_neg c] at hg'
        exact Or.inl ((phase4Body_frame sin15 d _ g' hg').1.trans hs)

/-- C15 on the shipped machine at the last Full Spin frame: it enters Staggered Stop with
stop index and stop counter 0. -/
theorem phase_order_witness :
    ∃ g', animate sinTable FOURKINGS ⟨Phase.phase3, 90, 3, 7, 444, [300, 400, 500, 600, 700]⟩
        = some g' ∧ g'.state = Phase.phase4 ∧ g'.slot = 0 ∧ g'.slotTicks = 0 :=
  let g : SlotGame := ⟨Phase.phase3, 90, 3, 7, 444, [300, 400, 500, 600, 700]⟩
  let ⟨g', hg'⟩ := (phase_order sinTable FOURKINGS g).1 (Or.inl (by decide))
  have h := (phase_order sinTable FOURKINGS g).2 g' hg'
  have h4 : g'.state = Phase.phase4 := by
    rw [animate_phase3 _ _ _ rfl] at hg'
    cases hg'
    rfl
  ⟨g', hg', h4, (h.2 (by decide) h4).2⟩

end SlotGame

namespace SlotGame

/-! ## The snap target, the size of the stop bump, the visible window -/

theorem nearestY_facts (d : Desc) (y : Int) (hT : 0 < d.tileSize) (hy : d.endY ≤ y) :
    Int.tmod y d.tileSize = y % d.tileSize ∧ d.tileSize ∣ y - y % d.tileSize ∧
    0 ≤ y % d.tileSize ∧ y % d.tileSize < d.tileSize ∧ d.tileSize ≤ y - y % d.tileSize := by
  have hE : d.endY = d.tileSize := rfl
  rw [hE] at hy
  have hy0 : 0 ≤ y := by omega
  have hdvd : d.tileSize ∣ y - y % d.tileSize := Int.dvd_sub_of_emod_eq rfl
  refine ⟨Int.tmod_eq_emod hy0 (le_of_lt hT), hdvd, Int.emod_nonneg y (by omega),
    Int.emod_lt_of_pos y hT, ?_⟩
  obtain ⟨q, hq⟩ := hdvd
  have hr0 : 0 ≤ y % d.tileSize := Int.emod_nonneg y (by omega)
  have hr1 : y % d.tileSize < d.tileSize := Int.emod_lt_of_pos y hT
  have hq1 : 0 < q := by
    by_contra hc
    have hq0 : q ≤ 0 := by omega
    have : d.tileSize * q ≤ 0 := Int.mul_nonpos_of_nonneg_of_nonpos (le_of_lt hT) hq0
    omega
  have : d.tileSize * 1 ≤ d.tileSize * q := Int.mul_le_mul_of_nonneg_left hq1 (le_of_lt hT)
  omega

/-- What `stopCurrent` returns on a state that has not started bumping, the current reel
at `y ≥ endY`: the far branch lowers the reel by 40 and changes nothing else, the near
branch puts the reel on `y - y % tileSize`, records it and sets the stop counter to 1. -/
theorem stopCurrent_start (sin15 : Nat → ℚ) (d : Desc) (y : Int) (hT : 0 < d.tileSize)
    (hy : d.endY ≤ y) (g : SlotGame) (h0 : g.slotTicks = 0)
    (hcur : g.slotSprites[g.slot]? = some y) :
    (y - 40 > y - Int.tmod y d.tileSize →
      stopCurrent sin15 d g
        = some { g with slotSprites := g.slotSprites.set g.slot (y - 40) }) ∧
    (¬ y - 40 > y - Int.tmod y d.tileSize →
      stopCurrent sin15 d g
        = some { g with slotTicks := 1, nearestY := y - Int.tmod y d.tileSize,
                        slotSprites := g.slotSprites.set g.slot (y - Int.tmod y d.tileSize) }) := by
  obtain ⟨htm, -, hr0, hr1, hge⟩ := nearestY_facts d y hT hy
  constructor
  · intro hfar
    unfold stopCurrent
    rw [if_pos h0, hcur]
    simp only
    rw [if_pos hfar, wrap_of_ge d (y - 40) (by show d.tileSize ≤ y - 40; rw [htm] at hfar; omega)]
  · intro hnear
    unfold stopCurrent
    rw [if_pos h0, hcur]
    simp only
    rw [if_neg hnear]

/-- C17: for a positive tile size and an offset `y ≥ endY`, the snap target
`nearestY = y - y % tileSize` is a multiple of the tile size with
`nearestY ≤ y < nearestY + tileSize` and `nearestY ≥ endY`; in the far branch
(`y - 40 > nearestY`) the wrap leaves `y - 40` as it is, and otherwise the snap lowers the
reel by at most 40.  On a state that has not started bumping and whose current reel is at
`y`, `stopCurrent` returns and lowers the current reel by at most 40, not below `nearestY`:
in the far branch it returns the state with the current reel at `y - 40` and nothing else
changed, in the near branch the state with the current reel at `nearestY`, the field
`nearestY` set to it and the stop counter 1.  A Staggered Stop frame inside the window
returns with the same outcome for the current reel. -/
theorem snap_target (sin15 : Nat → ℚ) (d : Desc) (y : Int) (hT : 0 < d.tileSize)
    (hy : d.endY ≤ y) :
    d.tileSize ∣ y - Int.tmod y d.tileSize ∧
    y - Int.tmod y d.tileSize ≤ y ∧ y < y - Int.tmod y d.tileSize + d.tileSize ∧
    d.endY ≤ y - Int.tmod y d.tileSize ∧
    (y - 40 > y - Int.tmod y d.tileSize → wrap d (y - 40) = y - 40) ∧
    (¬ y - 40 > y - Int.tmod y d.tileSize →
      0 ≤ y - (y - Int.tmod y d.tileSize) ∧ y - (y - Int.tmod y d.tileSize) ≤ 40) ∧
    ∀ g : SlotGame, g.slotTicks = 0 → g.slotSprites[g.slot]? = some y →
      (∃ g1 z, stopCurrent sin15 d g = some g1 ∧ g1.slotSprites[g.slot]? = some z ∧
        y - Int.tmod y d.tileSize ≤ z ∧ z ≤ y ∧ y - z ≤ 40) ∧
      (y - 40 > y - Int.tmod y d.tileSize →
        stopCurrent sin15 d g
          = some { g with slotSprites := g.slotSprites.set g.slot (y - 40) }) ∧
      (¬ y - 40 > y - Int.tmod y d.tileSize →
        stopCurrent sin15 d g
          = some { g with slotTicks := 1, nearestY := y - Int.tmod y d.tileSize,
                          slotSprites :=
                            g.slotSprites.set g.slot (y - Int.tmod y d.tileSize) }) ∧
      (g.state = Phase.phase4 → g.ticks < 45 →
        ∃ g', animate sin15 d g = some g' ∧ g'.slot = g.slot ∧
          (y - 40 > y - Int.tmod y d.tileSize →
            g'.slotTicks = 0 ∧ g'.nearestY = g.nearestY ∧
            g'.slotSprites[g.slot]? = some (y - 40)) ∧
          (¬ y - 40 > y - Int.tmod y d.tileSize →
            g'.slotTicks = 1 ∧ g'.nearestY = y - Int.tmod y d.tileSize ∧
            g'.slotSprites[g.slot]? = some (y - Int.tmod y d.tileSize))) := by
  have hE : d.endY = d.tileSize := rfl
  obtain ⟨htm, hdvd, hr0, hr1, hge⟩ := nearestY_facts d y hT hy
  have hwrap : y - 40 > y - Int.tmod y d.tileSize → wrap d (y - 40) = y - 40 := by
    intro hfar
    exact wrap_of_ge d (y - 40) (by rw [hE]; rw [htm] at hfar; omega)
  refine ⟨by rw [htm]; exact hdvd, by rw [htm]; omega, by rw [htm]; omega,
    by rw [htm, hE]; exact hge, hwrap, fun hn => by rw [htm] at hn ⊢; constructor <;> omega, ?_⟩
  intro g h0 hcur
  have hlt : g.slot < g.slotSprites.length := by
    by_contra hc
    rw [List.getElem?_eq_none (by omega)] at hcur
    cases hcur
  obtain ⟨hfarEq, hnearEq⟩ := stopCurrent_start sin15 d y hT hy g h0 hcur
  refine ⟨?_, hfarEq, hnearEq, ?_⟩
  · by_cases hfar : y - 40 > y - Int.tmod y d.tileSize
    · refine ⟨_, y - 40, hfarEq hfar, by simp [List.getElem?_set, hlt], ?_⟩
      rw [htm] at hfar ⊢
      omega
    · refine ⟨_, y - Int.tmod y d.tileSize, hnearEq hfar, by simp [List.getElem?_set, hlt], ?_⟩
      rw [htm] at hfar ⊢
      omega
  · intro h4 ht
    rw [animate_phase4 sin15 d g h4, if_neg (by omega), phase4Body]
    obtain ⟨hfarEq', hnearEq'⟩ := stopCurrent_start sin15 d y hT hy
      ⟨g.state, g.ticks + 1, g.slot, g.slotTicks, g.nearestY, g.slotSprites⟩ h0 hcur
    have hat : ∀ (v : Int) (l : List Int), l = g.slotSprites.set g.slot v →
        (spinFrom d (g.slot + 1) l)[g.slot]? = some v := by
      intro v l hl
      rw [getElem?_spinFrom, hl]
      simp [List.getElem?_set, hlt]
    by_cases hfar : y - 40 > y - Int.tmod y d.tileSize
    · rw [hfarEq' hfar]
      exact ⟨_, rfl, rfl, fun _ => ⟨h0, rfl, hat _ _ rfl⟩, fun hn => absurd hfar hn⟩
    · rw [hnearEq' hfar]
      exact ⟨_, rfl, rfl, fun hf => absurd hf hfar, fun _ => ⟨rfl, rfl, hat _ _ rfl⟩⟩

/-- C17 on the shipped description: reel 0 at 700 is near (700 - 666 ≤ 40); `stopCurrent`
snaps it to 666, records 666 and sets the stop counter to 1. -/
theorem snap_target_witness :
    (222 : Int) ∣ 700 - Int.tmod 700 222 ∧
    stopCurrent sinTable FOURKINGS ⟨Phase.phase4, 3, 0, 0, 0, [700, 300, 500, 230, 1000]⟩
      = some ⟨Phase.phase4, 3, 0, 1, 666, [666, 300, 500, 230, 1000]⟩ :=
  have h := snap_target sinTable FOURKINGS 700 (by decide) (by decide)
  ⟨h.1, (h.2.2.2.2.2.2 ⟨Phase.phase4, 3, 0, 0, 0, [700, 300, 500, 230, 1000]⟩ rfl rfl).2.2.1
    (by decide)⟩

/-- C19: for a tile size of at least 53 (222 is shipped) and a sine with `|sin15 t| ≤ 1`,
the stop bump at every stop counter `1 ≤ t ≤ 15` is an integer with
`0 ≤ bump t ≤ tileSize / 7`, and a Staggered Stop frame that bumps with counter `t` (the
window is not over, the stop index is a reel index) returns and puts the current reel at
an offset in `[nearestY, nearestY + tileSize / 7]`. -/
theorem bump_range (sin15 : Nat → ℚ) (d : Desc) (t : Nat) (hT : 53 ≤ d.tileSize)
    (hsin : ∀ k, |sin15 k| ≤ 1) (h1 : 1 ≤ t) (h15 : t ≤ 15) :
    0 ≤ bump sin15 d t ∧ ((bump sin15 d t : Int) : ℚ) ≤ (d.tileSize : ℚ) / 7 ∧
    ∀ g : SlotGame, g.state = Phase.phase4 → g.slotTicks = t → g.ticks < 45 →
      g.slot < g.slotSprites.length →
      ∃ g' z, animate sin15 d g = some g' ∧ g'.slotSprites[g.slot]? = some z ∧
        g.nearestY ≤ z ∧ (z : ℚ) ≤ (g.nearestY : ℚ) + (d.tileSize : ℚ) / 7 := by
  have h0 := bump_nonneg sin15 d t h15
  have hTq : (53 : ℚ) ≤ (d.tileSize : ℚ) := by exact_mod_cast hT
  have hup : ((bump sin15 d t : Int) : ℚ) ≤ (d.tileSize : ℚ) / 7 := by
    have ht1 : (1 : ℚ) ≤ (t : ℚ) := by exact_mod_cast h1
    have ht15 : (t : ℚ) ≤ 15 := by exact_mod_cast h15
    have habs : |(d.tileSize : ℚ) / 7 * sin15 t| ≤ (d.tileSize : ℚ) / 7 := by
      rw [abs_mul, abs_of_pos (by linarith : (0 : ℚ) < (d.tileSize : ℚ) / 7)]
      have := hsin t
      have hpos : (0 : ℚ) ≤ (d.tileSize : ℚ) / 7 := by linarith
      calc (d.tileSize : ℚ) / 7 * |sin15 t| ≤ (d.tileSize : ℚ) / 7 * 1 :=
            mul_le_mul_of_nonneg_left this hpos
        _ = (d.tileSize : ℚ) / 7 := mul_one _
    have hk0 : (0 : ℚ) ≤ 1 - (t : ℚ) / 15 := by linarith
    have hk1 : 1 - (t : ℚ) / 15 ≤ 14 / 15 := by linarith
    have hx : (1 - (t : ℚ) / 15) * |(d.tileSize : ℚ) / 7 * sin15 t|
        ≤ 14 / 15 * ((d.tileSize : ℚ) / 7) :=
      mul_le_mul hk1 habs (abs_nonneg _) (by norm_num)
    have hfl := Int.floor_le ((1 - (t : ℚ) / 15) * |(d.tileSize : ℚ) / 7 * sin15 t| + 1 / 2)
    unfold bump jsRound
    linarith
  refine ⟨h0, hup, ?_⟩
  intro g h4 hst ht hs
  rw [animate_phase4 sin15 d g h4, if_neg (by omega)]
  have hcur : stopCurrent sin15 d { g with ticks := g.ticks + 1 } =
      some ⟨g.state, g.ticks + 1, g.slot, t + 1, g.nearestY,
        g.slotSprites.set g.slot (g.nearestY + bump sin15 d t)⟩ := by
    simp only [stopCurrent, hst]
    rw [if_neg (by omega), if_pos h15, if_pos hs]
  refine ⟨⟨g.state, g.ticks + 1, g.slot, t + 1, g.nearestY,
      spinFrom d (g.slot + 1) (g.slotSprites.set g.slot (g.nearestY + bump sin15 d t))⟩,
    g.nearestY + bump sin15 d t, by rw [phase4Body, hcur]; rfl, ?_, by omega, ?_⟩
  · simp only [getElem?_spinFrom]
    simp [List.getElem?_set, hs]
  · push_cast
    linarith

/-- C19 on the shipped machine at stop counter 3, where the bump is largest. -/
theorem bump_range_witness :
    0 ≤ bump sinTable FOURKINGS 3 ∧
    ((bump sinTable FOURKINGS 3 : Int) : ℚ) ≤ (FOURKINGS.tileSize : ℚ) / 7 :=
  have hsin : ∀ k, |sinTable k| ≤ 1 := by
    intro k
    unfold sinTable
    split <;> norm_num [abs_le]
  have h := bump_range sinTable FOURKINGS 3 (by decide) hsin (by decide) (by decide)
  ⟨h.1, h.2.1⟩

/-- C18: for the shipped tile geometry (tile size 222, six sprites), at least one reel and
a sine accurate to six decimals, every number of frames after `setup` leads to a state in
which every reel's offset `p` satisfies `0 ≤ p` and
`p + 3 * tileSize ≤ (K + 5) * tileSize`, the pixel height of the strip; more precisely
`222 ≤ p ≤ 1580`, so `p + 666 ≤ 2442`. -/
theorem window_in_strip (sin15 : Nat → ℚ) (d : Desc) (hT : d.tileSize = 222)
    (hK : d.sprites.length = 6) (hN : 0 < d.slotCount) (hs : SinAccurate sin15) (n : Nat) :
    ∃ g, frames sin15 d n = some g ∧
      ∀ p ∈ g.slotSprites,
        0 ≤ p ∧ p + 3 * d.tileSize ≤ ((d.spriteCount : Int) + 5) * d.tileSize ∧
        222 ≤ p ∧ p ≤ 1580 ∧ p + 666 ≤ 2442 ∧ (d.itemCount : Int) * d.tileSize = 2442 := by
  obtain ⟨g, hg, hinv⟩ := frames_inv sin15 d hT hK hN n
  refine ⟨g, hg, ?_⟩
  intro p hp
  obtain ⟨i, hi⟩ := List.mem_iff_getElem?.mp hp
  have h1 := hinv.low i p hi
  have h2 := hinv.up (bumpBounded_of_accurate sin15 d hT hs) i p hi
  have hKc : d.spriteCount = 6 := hK
  have hI : d.itemCount = 11 := by simp [Desc.itemCount, hKc]
  rw [hT, hKc, hI]
  refine ⟨by omega, by norm_num; omega, h1, h2, by omega, by norm_num⟩

/-- C18 on the shipped machine 44 frames after `setup`, at the top of the initial bump. -/
theorem window_in_strip_witness :
    ∃ g, frames sinTable FOURKINGS 44 = some g ∧
      ∀ p ∈ g.slotSprites,
        0 ≤ p ∧ p + 3 * FOURKINGS.tileSize
          ≤ ((FOURKINGS.spriteCount : Int) + 5) * FOURKINGS.tileSize ∧
        222 ≤ p ∧ p ≤ 1580 ∧ p + 666 ≤ 2442 ∧
        (FOURKINGS.itemCount : Int) * FOURKINGS.tileSize = 2442 :=
  window_in_strip sinTable FOURKINGS rfl rfl (by decide) sinAccurate_sinTable 44

end SlotGame

namespace SlotGame

/-! ## The length of a cycle -/

theorem run_add (sin15 : Nat → ℚ) (d : Desc) (m n : Nat) (g : SlotGame) :
    run sin15 d (m + n) g = (run sin15 d m g).bind (run sin15 d n) := by
  induction n with
  | zero =>
    cases h : run sin15 d m g with
    | none => simp [h]
    | some x => simp [h, run]
  | succ n ih =>
    rw [← Nat.add_assoc, run, ih]
    cases h : run sin15 d m g with
    | none => rfl
    | some x => simp [run]

theorem run_succ_left (sin15 : Nat → ℚ) (d : Desc) (n : Nat) (g : SlotGame) :
    run sin15 d (n + 1) g = (animate sin15 d g).bind (run sin15 d n) := by
  rw [Nat.add_comm, run_add]
  rfl

theorem run_cycles (sin15 : Nat → ℚ) (d : Desc) (g0 : SlotGame)
    (hs : g0.state = Phase.phase1) (ht : g0.ticks = 0) (hN : 0 < g0.slotSprites.length)
    (c : Nat) :
    ∃ g, run sin15 d (c * (135 + 46 * g0.slotSprites.length)) g0 = some g ∧
      g.state = Phase.phase1 ∧ g.ticks = 0 ∧ g.slotSprites.length = g0.slotSprites.length := by
  induction c with
  | zero => exact ⟨g0, by rw [Nat.zero_mul]; rfl, hs, ht, rfl⟩
  | succ c ih =>
    obtain ⟨g, hg, hgs, hgt, hlen⟩ := ih
    obtain ⟨g', hg', hsch⟩ := run_schedule sin15 d g hgs hgt (by rw [hlen]; exact hN)
      (135 + 46 * g.slotSprites.length) (le_refl _)
    rw [hlen] at hg' hsch
    refine ⟨g', ?_, (hsch.back rfl).1, (hsch.back rfl).2, hsch.reels⟩
    rw [Nat.succ_mul, run_add, hg]
    exact hg'

/-- The clock at every frame: the schedule of a cycle, repeated. -/
theorem run_clock (sin15 : Nat → ℚ) (d : Desc) (g0 : SlotGame)
    (hs : g0.state = Phase.phase1) (ht : g0.ticks = 0) (hN : 0 < g0.slotSprites.length)
    (n : Nat) :
    ∃ g, run sin15 d n g0 = some g ∧
      OnSchedule g0.slotSprites.length (n % (135 + 46 * g0.slotSprites.length)) g := by
  obtain ⟨g, hg, hgs, hgt, hlen⟩ :=
    run_cycles sin15 d g0 hs ht hN (n / (135 + 46 * g0.slotSprites.length))
  have hr : n % (135 + 46 * g0.slotSprites.length) < 135 + 46 * g0.slotSprites.length :=
    Nat.mod_lt _ (by omega)
  obtain ⟨g', hg', hsch⟩ := run_schedule sin15 d g hgs hgt (by rw [hlen]; exact hN)
    (n % (135 + 46 * g0.slotSprites.length)) (by rw [hlen]; omega)
  rw [hlen] at hsch
  refine ⟨g', ?_, hsch⟩
  have hn : n = n / (135 + 46 * g0.slotSprites.length) * (135 + 46 * g0.slotSprites.length)
      + n % (135 + 46 * g0.slotSprites.length) := (Nat.div_add_mod' n _).symm
  calc run sin15 d n g0
      = run sin15 d (n / (135 + 46 * g0.slotSprites.length)
          * (135 + 46 * g0.slotSprites.length)
          + n % (135 + 46 * g0.slotSprites.length)) g0 := by rw [← hn]
    _ = (some g).bind (run sin15 d (n % (135 + 46 * g0.slotSprites.length))) := by
        rw [run_add, hg]
    _ = some g' := hg'

/-- C20: with `N ≥ 1` reels every frame returns and the clock has period `135 + 46 * N`:
`n` frames after `setup`, with `r` the remainder of `n` modulo the period, the machine is
in Staggered Stop exactly when `135 ≤ r` (so for `46 * N` frames of each cycle), then with
stop index `(r - 135) / 46` and tick counter `(r - 135) mod 46`, and it is in Initial Delay
with tick counter 0 exactly when `r = 0`; with five reels the period is 365. -/
theorem cycle_length (sin15 : Nat → ℚ) (d : Desc) (hN : 0 < d.slotCount) (n : Nat) :
    ∃ g, frames sin15 d n = some g ∧
      (g.state = Phase.phase4 ↔ 135 ≤ n % (135 + 46 * d.slotCount)) ∧
      (g.state = Phase.phase4 →
        g.slot = (n % (135 + 46 * d.slotCount) - 135) / 46 ∧
        g.ticks = (n % (135 + 46 * d.slotCount) - 135) % 46) ∧
      (g.state = Phase.phase1 ∧ g.ticks = 0 ↔ n % (135 + 46 * d.slotCount) = 0) ∧
      (d.slotCount = 5 → (g.state = Phase.phase1 ∧ g.ticks = 0 ↔ n % 365 = 0)) := by
  have hlen : (setup d).slotSprites.length = d.slotCount := by simp [setup]
  obtain ⟨g, hg, hsch⟩ := run_clock sin15 d (setup d) rfl rfl (by rw [hlen]; exact hN) n
  rw [hlen] at hsch
  have hr : n % (135 + 46 * d.slotCount) < 135 + 46 * d.slotCount :=
    Nat.mod_lt _ (by omega)
  have h365 : d.slotCount = 5 → n % 365 = n % (135 + 46 * d.slotCount) :=
    fun h5 => by rw [h5]
  generalize n % (135 + 46 * d.slotCount) = r at hsch hr h365
  have h4 : g.state = Phase.phase4 ↔ 135 ≤ r := by
    constructor
    · intro h
      by_contra hc
      by_cases c1 : r ≤ 30
      · exact absurd ((hsch.delay c1).1.symm.trans h) (by decide)
      · by_cases c2 : r ≤ 43
        · exact absurd ((hsch.rise (by omega) c2).1.symm.trans h) (by decide)
        · exact absurd ((hsch.spin (by omega) (by omega)).1.symm.trans h) (by decide)
    · intro h
      exact (hsch.stop h hr).1
  have h1 : g.state = Phase.phase1 ∧ g.ticks = 0 ↔ r = 0 := by
    constructor
    · intro ⟨h, ht⟩
      by_cases c1 : r ≤ 30
      · have := (hsch.delay c1).2
        omega
      · by_cases c2 : r ≤ 43
        · exact absurd ((hsch.rise (by omega) c2).1.symm.trans h) (by decide)
        · by_cases c3 : r ≤ 134
          · exact absurd ((hsch.spin (by omega) c3).1.symm.trans h) (by decide)
          · exact absurd ((hsch.stop (by omega) hr).1.symm.trans h) (by decide)
    · intro h
      have := hsch.delay (by omega)
      exact ⟨this.1, by omega⟩
  refine ⟨g, hg, h4, fun h => ?_, h1, ?_⟩
  · have := hsch.stop (h4.mp h) hr
    exact ⟨this.2.1, this.2.2⟩
  · intro h5
    rw [h365 h5]
    exact h1

/-- C20 on the shipped machine: after 730 frames it is in Initial Delay with tick counter
0, after 729 frames it is not. -/
theorem cycle_length_witness :
    (∃ g, frames sinTable FOURKINGS 730 = some g ∧ g.state = Phase.phase1 ∧ g.ticks = 0) ∧
    ∃ g, frames sinTable FOURKINGS 729 = some g ∧ ¬ (g.state = Phase.phase1 ∧ g.ticks = 0) :=
  let ⟨g, hg, h⟩ := cycle_length sinTable FOURKINGS (by decide) 730
  let ⟨g', hg', h'⟩ := cycle_length sinTable FOURKINGS (by decide) 729
  ⟨⟨g, hg, (h.2.2.2 rfl).mpr (by decide)⟩,
   ⟨g', hg', fun hc => absurd ((h'.2.2.2 rfl).mp hc) (by decide)⟩⟩

end SlotGame

namespace SlotGame

/-! ## The bump fits the stop window -/

/-- The body of `phase4` for the tile size 222 on a current reel at `y ≥ 222`. -/
theorem body_shipped (sin15 : Nat → ℚ) (d : Desc) (hT : d.tileSize = 222) (g0 : SlotGame)
    (y : Int) (hy : g0.slotSprites[g0.slot]? = some y) (hy222 : 222 ≤ y) :
    ∃ g', phase4Body sin15 d g0 = some g' ∧ g'.state = g0.state ∧ g'.ticks = g0.ticks ∧
      g'.slot = g0.slot ∧ g'.slotSprites.length = g0.slotSprites.length ∧
      ((g0.slotTicks = 0 ∧ 40 < y % 222 ∧ g'.slotTicks = 0 ∧
          g'.slotSprites[g0.slot]? = some (y - 40)) ∨
       (g0.slotTicks = 0 ∧ y % 222 ≤ 40 ∧ g'.slotTicks = 1 ∧ g'.nearestY = y - y % 222 ∧
          g'.slotSprites[g0.slot]? = some (y - y % 222)) ∨
       (1 ≤ g0.slotTicks ∧ g0.slotTicks ≤ 15 ∧ g'.slotTicks = g0.slotTicks + 1 ∧
          g'.nearestY = g0.nearestY ∧
          g'.slotSprites[g0.slot]? = some (g0.nearestY + bump sin15 d g0.slotTicks)) ∨
       (15 < g0.slotTicks ∧ g'.slotTicks = g0.slotTicks ∧ g'.nearestY = g0.nearestY ∧
          g'.slotSprites[g0.slot]? = some y)) := by
  obtain ⟨g', hg', hst, htk, hsl, hlen, -, -, hcases⟩ := phase4Body_cases sin15 d g0 y hy
  have htm : Int.tmod y 222 = y % 222 := Int.tmod_eq_emod (by omega) (by norm_num)
  rw [hT, htm] at hcases
  refine ⟨g', hg', hst, htk, hsl, hlen, ?_⟩
  rcases hcases with ⟨h0, hf, h0', -, hz⟩ | ⟨h0, hf, h1', hn, hz⟩ | h | h
  · refine Or.inl ⟨h0, by omega, h0', ?_⟩
    rw [hz, wrap_of_ge d (y - 40) (by show d.tileSize ≤ y - 40; rw [hT]; omega)]
  · exact Or.inr (Or.inl ⟨h0, by omega, h1', hn, hz⟩)
  · exact Or.inr (Or.inr (Or.inl h))
  · exact Or.inr (Or.inr (Or.inr h))

theorem snap_within (sin15 : Nat → ℚ) (d : Desc) (hT : d.tileSize = 222) (k : Nat) :
    ∀ (g : SlotGame) (y : Int), g.state = Phase.phase4 → g.slotTicks = 0 →
      g.slotSprites[g.slot]? = some y → 222 ≤ y → y % 222 ≤ 40 * ((k : Int) + 1) →
      g.ticks + k < 45 →
      ∃ f, f ≤ k ∧
        (∀ j, j ≤ f → ∃ gj, run sin15 d j g = some gj ∧ gj.state = Phase.phase4 ∧
          gj.slot = g.slot ∧ gj.slotTicks = 0 ∧
          gj.slotSprites[g.slot]? = some (y - 40 * (j : Int))) ∧
        ∃ gs, run sin15 d (f + 1) g = some gs ∧ gs.state = Phase.phase4 ∧
          gs.slot = g.slot ∧ gs.ticks = g.ticks + f + 1 ∧
          gs.slotSprites.length = g.slotSprites.length ∧ gs.slotTicks = 1 ∧
          gs.nearestY = y - y % 222 ∧ gs.slotSprites[g.slot]? = some (y - y % 222) := by
  induction k with
  | zero =>
    intro g y h4 h0 hy hy222 hr ht
    have hframe : animate sin15 d g = phase4Body sin15 d { g with ticks := g.ticks + 1 } := by
      rw [animate_phase4 sin15 d g h4, if_neg (by omega)]
    obtain ⟨g', hg', hst, htk, hsl, hlen, hcases⟩ :=
      body_shipped sin15 d hT { g with ticks := g.ticks + 1 } y hy hy222
    rw [← hframe] at hg'
    rcases hcases with ⟨-, hf, -, -⟩ | ⟨-, -, h1', hn, hz⟩ | ⟨h1, -⟩ | ⟨h16, -⟩
    · omega
    · refine ⟨0, le_refl _, ?_, g', ?_, hst.trans h4, hsl, by rw [htk], hlen, h1', hn, hz⟩
      · intro j hj
        have hj0 : j = 0 := by omega
        subst hj0
        exact ⟨g, rfl, h4, rfl, h0, by simpa using hy⟩
      · rw [run_succ_left, hg']
        rfl
    · exact absurd h0 (by have : 1 ≤ g.slotTicks := h1; omega)
    · exact absurd h0 (by have : 15 < g.slotTicks := h16; omega)
  | succ k ih =>
    intro g y h4 h0 hy hy222 hr ht
    have hframe : animate sin15 d g = phase4Body sin15 d { g with ticks := g.ticks + 1 } := by
      rw [animate_phase4 sin15 d g h4, if_neg (by omega)]
    obtain ⟨g', hg', hst, htk, hsl, hlen, hcases⟩ :=
      body_shipped sin15 d hT { g with ticks := g.ticks + 1 } y hy hy222
    rw [← hframe] at hg'
    have hsl' : g'.slot = g.slot := hsl
    have htk' : g'.ticks = g.ticks + 1 := htk
    have hlen' : g'.slotSprites.length = g.slotSprites.length := hlen
    rcases hcases with ⟨-, hf, h0', hz⟩ | ⟨-, -, h1', hn, hz⟩ | ⟨h1, -⟩ | ⟨h16, -⟩
    · have hz' : g'.slotSprites[g'.slot]? = some (y - 40) := by rw [hsl']; exact hz
      obtain ⟨f, hfk, hfar, gs, hgs, hs4, hsslot, hsticks, hslen, hs1, hsn, hsz⟩ :=
        ih g' (y - 40) (hst.trans h4) h0' hz' (by omega) (by push_cast at hr ⊢; omega)
          (by omega)
      refine ⟨f + 1, by omega, ?_, gs, ?_, hs4, by omega, by omega, by omega, hs1, ?_, ?_⟩
      · intro j hj
        cases j with
        | zero => exact ⟨g, rfl, h4, rfl, h0, by simpa using hy⟩
        | succ j =>
          obtain ⟨gj, hgj, hj4, hjslot, hj0, hjz⟩ := hfar j (by omega)
          refine ⟨gj, ?_, hj4, by omega, hj0, ?_⟩
          · rw [run_succ_left, hg']
            exact hgj
          · rw [← hsl', hjz]
            congr 1
            push_cast
            ring
      · rw [run_succ_left, hg']
        exact hgs
      · rw [hsn]; omega
      · rw [← hsl', hsz]
        congr 1
        omega
    · refine ⟨0, Nat.zero_le _, ?_, g', ?_, hst.trans h4, hsl, by rw [htk], hlen, h1', hn, hz⟩
      · intro j hj
        have hj0 : j = 0 := by omega
        subst hj0
        exact ⟨g, rfl, h4, rfl, h0, by simpa using hy⟩
      · rw [run_succ_left, hg']
        rfl
    · exact absurd h0 (by have : 1 ≤ g.slotTicks := h1; omega)
    · exact absurd h0 (by have : 15 < g.slotTicks := h16; omega)

theorem bump_run (sin15 : Nat → ℚ) (d : Desc) (g : SlotGame) (h4 : g.state = Phase.phase4)
    (hs1 : 1 ≤ g.slotTicks) (hslot : g.slot < g.slotSprites.length) (j : Nat)
    (hj : g.slotTicks + j ≤ 16) (ht : g.ticks + j ≤ 45) :
    ∃ g', run sin15 d j g = some g' ∧ g'.state = Phase.phase4 ∧ g'.slot = g.slot ∧
      g'.ticks = g.ticks + j ∧ g'.slotSprites.length = g.slotSprites.length ∧
      g'.slotTicks = g.slotTicks + j ∧ g'.nearestY = g.nearestY ∧
      (1 ≤ j → g'.slotSprites[g.slot]?
        = some (g.nearestY + bump sin15 d (g.slotTicks + j - 1))) := by
  induction j with
  | zero => exact ⟨g, rfl, h4, rfl, rfl, rfl, rfl, rfl, fun h => absurd h (by decide)⟩
  | succ j ih =>
    obtain ⟨gj, hgj, hj4, hjslot, hjticks, hjlen, hjst, hjn, -⟩ := ih (by omega) (by omega)
    have hframe : animate sin15 d gj
        = phase4Body sin15 d { gj with ticks := gj.ticks + 1 } := by
      rw [animate_phase4 sin15 d gj hj4, if_neg (by omega)]
    have hslot' : gj.slot < gj.slotSprites.length := by omega
    obtain ⟨g', hg', hst, htk, hsl, hlen, -, -, hcases⟩ :=
      phase4Body_cases sin15 d { gj with ticks := gj.ticks + 1 } gj.slotSprites[gj.slot]
        (List.getElem?_eq_getElem hslot')
    rw [← hframe] at hg'
    have hsl' : g'.slot = gj.slot := hsl
    have htk' : g'.ticks = gj.ticks + 1 := htk
    have hlen' : g'.slotSprites.length = gj.slotSprites.length := hlen
    rcases hcases with ⟨h0, -⟩ | ⟨h0, -⟩ | ⟨-, -, hs', hn', hz⟩ | ⟨h16, -⟩
    · exact absurd h0 (by show ¬ gj.slotTicks = 0; omega)
    · exact absurd h0 (by show ¬ gj.slotTicks = 0; omega)
    · have hs'' : g'.slotTicks = gj.slotTicks + 1 := hs'
      have hn'' : g'.nearestY = gj.nearestY := hn'
      have hz' : g'.slotSprites[gj.slot]?
          = some (gj.nearestY + bump sin15 d gj.slotTicks) := hz
      refine ⟨g', by rw [run, hgj]; exact hg', hst.trans hj4, by omega, by omega, by omega,
        by omega, by rw [hn'', hjn], fun _ => ?_⟩
      rw [← hjslot, hz', hjn, hjst]
      rfl
    · exact absurd h16 (by show ¬ 15 < gj.slotTicks; omega)

end SlotGame

namespace SlotGame

theorem finish_bump (sin15 : Nat → ℚ) (d : Desc) (gs : SlotGame)
    (h4 : gs.state = Phase.phase4) (h1 : gs.slotTicks = 1)
    (hslot : gs.slot < gs.slotSprites.length) (ht : gs.ticks + 15 ≤ 45) :
    ∃ ge, run sin15 d 15 gs = some ge ∧ ge.state = Phase.phase4 ∧ ge.slot = gs.slot ∧
      ge.slotTicks = 16 ∧ ge.nearestY = gs.nearestY ∧
      ge.slotSprites[gs.slot]? = some gs.nearestY ∧ ge.ticks = gs.ticks + 15 := by
  obtain ⟨ge, hge, he4, heslot, heticks, -, hest, hen, hez⟩ :=
    bump_run sin15 d gs h4 (by omega) hslot 15 (by omega) ht
  refine ⟨ge, hge, he4, heslot, by omega, hen, ?_, heticks⟩
  rw [hez (by decide), h1]
  have : bump sin15 d (1 + 15 - 1) = 0 := bump_fifteen sin15 d
  rw [this, add_zero]

/-- C16: for the tile size 222, a state in Staggered Stop and an offset `y ≥ endY`.  If the
stop counter is 0, the current reel is at `y` and the tick counter leaves 21 frames to
the window (it is 0 when the window of reel 0 starts), the stop of the current reel fits:
at most 5 frames lower it by 40, the next frame snaps it to the boundary and 15 more
frames end the bump, the stop counter passing 15 after at most 5 + 1 + 15 = 21 frames with
the reel on the boundary.  If the next frame advances the stop index to a reel at `y` (the
window of a later reel starts), the stop of that reel fits in the same way. -/
theorem bump_fits_window (sin15 : Nat → ℚ) (d : Desc) (g : SlotGame) (y : Int)
    (hT : d.tileSize = 222) (h4 : g.state = Phase.phase4) (hy222 : d.endY ≤ y) :
    (g.slotTicks = 0 → g.ticks + 21 ≤ 45 → g.slotSprites[g.slot]? = some y →
      FitsWindow sin15 d g g.slot y) ∧
    (45 < g.ticks + 1 → g.slotSprites[g.slot + 1]? = some y →
      FitsWindow sin15 d g (g.slot + 1) y) ∧
    (21 : Nat) < 45 := by
  have hy : 222 ≤ y := by
    have : d.endY = 222 := hT
    omega
  have htm : Int.tmod y d.tileSize = y % 222 := by
    rw [hT]
    exact Int.tmod_eq_emod (by omega) (by norm_num)
  refine ⟨?_, ?_, by decide⟩
  · intro h0 ht hcur
    have hslot : g.slot < g.slotSprites.length := by
      by_contra hc
      rw [List.getElem?_eq_none (by omega)] at hcur
      cases hcur
    obtain ⟨f, hf, hfar, gs, hgs, hs4, hsslot, hsticks, hslen, hs1, hsn, hsz⟩ :=
      snap_within sin15 d hT 5 g y h4 h0 hcur hy (by omega) (by omega)
    obtain ⟨ge, hge, he4, heslot, hest, hen, hez, heticks⟩ :=
      finish_bump sin15 d gs hs4 hs1 (by omega) (by omega)
    refine ⟨f, hf, by omega, ?_, ⟨gs, hgs, hs4, hsslot, hs1, by rw [htm, hsn], ?_⟩,
      ⟨ge, ?_, he4, by omega, hest, by rw [htm, hen, hsn], ?_, by omega⟩⟩
    · intro j _ hj
      exact hfar j hj
    · rw [hsz, hsn]
    · rw [show f + 16 = (f + 1) + 15 by omega, run_add, hgs]
      exact hge
    · rw [← hsslot, hen]
      exact hez
  · intro hadv hnext
    have hslot : g.slot + 1 < g.slotSprites.length := by
      by_contra hc
      rw [List.getElem?_eq_none (by omega)] at hnext
      cases hnext
    have hframe : animate sin15 d g
        = phase4Body sin15 d ⟨g.state, 0, g.slot + 1, 0, g.nearestY, g.slotSprites⟩ := by
      rw [animate_phase4 sin15 d g h4, if_pos hadv, if_neg (by omega)]
    obtain ⟨g1, hg1, hst, htk, hsl, hlen, hcases⟩ :=
      body_shipped sin15 d hT ⟨g.state, 0, g.slot + 1, 0, g.nearestY, g.slotSprites⟩ y
        hnext hy
    rw [← hframe] at hg1
    have hsl' : g1.slot = g.slot + 1 := hsl
    have htk' : g1.ticks = 0 := htk
    have hlen' : g1.slotSprites.length = g.slotSprites.length := hlen
    have h14 : g1.state = Phase.phase4 := hst.trans h4
    rcases hcases with ⟨-, hfarY, h0', hz⟩ | ⟨-, -, h1', hn, hz⟩ | ⟨h1, -⟩ | ⟨h16, -⟩
    · have hz' : g1.slotSprites[g1.slot]? = some (y - 40) := by rw [hsl']; exact hz
      obtain ⟨f, hf, hfar, gs, hgs, hs4, hsslot, hsticks, hslen, hs1, hsn, hsz⟩ :=
        snap_within sin15 d hT 4 g1 (y - 40) h14 h0' hz' (by omega) (by omega) (by omega)
      obtain ⟨ge, hge, he4, heslot, hest, hen, hez, heticks⟩ :=
        finish_bump sin15 d gs hs4 hs1 (by omega) (by omega)
      have hbound : y - 40 - (y - 40) % 222 = y - y % 222 := by omega
      refine ⟨f + 1, by omega, by omega, ?_,
        ⟨gs, ?_, hs4, by omega, hs1, by rw [htm, hsn, hbound], ?_⟩,
        ⟨ge, ?_, he4, by omega, hest, by rw [htm, hen, hsn, hbound], ?_, by omega⟩⟩
      · intro j hj1 hj
        obtain ⟨j', rfl⟩ : ∃ j', j = j' + 1 := ⟨j - 1, by omega⟩
        obtain ⟨gj, hgj, hj4, hjslot, hj0, hjz⟩ := hfar j' (by omega)
        refine ⟨gj, ?_, hj4, by omega, hj0, ?_⟩
        · rw [run_succ_left, hg1]
          exact hgj
        · rw [← hsl', hjz]
          congr 1
          push_cast
          ring
      · rw [run_succ_left, hg1]
        exact hgs
      · rw [← hsl', hsz, hsn]
      · rw [show f + 1 + 16 = ((f + 1) + 15) + 1 by omega, run_succ_left, hg1]
        show run sin15 d ((f + 1) + 15) g1 = some ge
        rw [run_add, hgs]
        exact hge
      · rw [← hsl', ← hsslot, hen]
        exact hez
    · obtain ⟨ge, hge, he4, heslot, hest, hen, hez, heticks⟩ :=
        finish_bump sin15 d g1 h14 h1' (by omega) (by omega)
      have hn' : g1.nearestY = y - y % 222 := hn
      refine ⟨0, by omega, by omega, ?_,
        ⟨g1, ?_, h14, hsl', h1', by rw [htm, hn'], ?_⟩,
        ⟨ge, ?_, he4, by omega, hest, by rw [htm, hen, hn'], ?_, by omega⟩⟩
      · intro j hj1 hj
        omega
      · rw [run_succ_left, hg1]
        rfl
      · rw [hn']
        exact hz
      · rw [show 0 + 16 = 15 + 1 by omega, run_succ_left, hg1]
        exact hge
      · rw [← hsl', hen]
        exact hez
    · exact absurd h1 (Nat.not_succ_le_zero 0)
    · exact absurd h16 (Nat.not_lt_zero 15)

/-- C16 on the shipped machine at the start of the window of reel 0, the reel at 1101
(213 above the boundary 888): the stop fits, here with 5 lowering frames. -/
theorem bump_fits_window_witness :
    FitsWindow sinTable FOURKINGS ⟨Phase.phase4, 0, 0, 0, 0, [1101, 300, 500, 230, 1000]⟩ 0 1101 :=
  (bump_fits_window sinTable FOURKINGS ⟨Phase.phase4, 0, 0, 0, 0, [1101, 300, 500, 230, 1000]⟩
    1101 rfl rfl (by decide)).1 rfl (by decide) rfl

end SlotGame
